import Mathlib

/-!
Verification of the spatial-layout / navigation-history / camera-control core of
`src/main.js` and `src/camera-config.js`, via a shallow embedding.

Modelling conventions:
* JS numbers in the discrete event logic are modelled as `ℚ` (all constants are
  exact decimals and the discrete logic performs only field operations and
  comparisons, which are exact on IEEE doubles at these magnitudes); the
  per-frame camera integrator (`updateCameraSmooth`) uses `Math.exp` and is
  modelled over `ℝ`.
* A JS division whose divisor is `0` produces `NaN`/`Infinity`; such values are
  modelled as `Option.none` (`jsDiv`).
* JS string truthiness (`if (s)` is false for `null`/`undefined`/empty string)
  is modelled by `jsTruthy` on `Option String`.
* `folders.json` (the graph data) is not part of the sources; the graph is a
  parameter everywhere (`Graph` = the ordered list of folders, matching the
  `Object.values(FOLDER_GRAPH)` iteration order).
* `camera-config.js` contains two variants of `CAMERA_CONFIG`; both are
  embedded (`CAMERA_CONFIG_v1` from the first block, `CAMERA_CONFIG_v2` from
  the second block).
-/

/-- JS truthiness for a nullable string: `null`/`undefined` and `""` are falsy. -/
def jsTruthy : Option String → Bool
  | none => false
  | some s => s ≠ ""

/-- A node of a folder, from `folders.json` shape as consumed by `main.js`:
`id, label, type, enterable, nextFolderId, icon, loreText?, clueId?, trapEffect?`.
Only the fields the navigation logic reads are modelled. -/
structure Node where
  id : String
  type : String
  enterable : Bool
  nextFolderId : Option String
  trapEffect : Option String
deriving DecidableEq, Repr

/-- A folder of the graph: `id, name, depth, nodes`. -/
structure Folder where
  id : String
  name : String
  depth : Nat
  nodes : List Node
deriving DecidableEq, Repr

/-- The folder graph, in `Object.values(FOLDER_GRAPH)` iteration order. -/
abbrev Graph := List Folder

/-- `FOLDER_GRAPH[fid]` lookup. -/
def findFolder (g : Graph) (fid : String) : Option Folder :=
  g.find? (fun fo => fo.id = fid)

/-- `FOLDER_GRAPH[fid].nodes`, or `[]` when the folder id is dangling
(matching the `if (currentFolder && currentFolder.nodes)` guard in the BFS). -/
def folderNodes (g : Graph) (fid : String) : List Node :=
  match findFolder g fid with
  | some fo => fo.nodes
  | none => []

/-- The `nextFolderId` of a node when it is truthy (`if (node.nextFolderId)`). -/
def jsNextId (n : Node) : Option String :=
  match n.nextFolderId with
  | some nf => if nf = "" then none else some nf
  | none => none

/-- The truthy `nextFolderId` targets of the nodes of folder `fid`: the
outgoing `nextFolderId` edges used by the visibility BFS and the connector
drawing. -/
def succIds (g : Graph) (fid : String) : List String :=
  (folderNodes g fid).filterMap jsNextId

/-- One mode block of `CAMERA_CONFIG` (`folder` / `node`). -/
structure CameraModeConfig where
  minDistance : ℚ
  maxDistance : ℚ
  minHeight : ℚ
  maxHeight : ℚ
deriving DecidableEq, Repr

/-- `CAMERA_CONFIG` from `src/camera-config.js`. -/
structure CameraConfig where
  folder : CameraModeConfig
  folderInitialDistance : ℚ
  folderInitialHeight : ℚ
  node : CameraModeConfig
  nodeSelectDistance : ℚ
  deselectThreshold : ℚ
  smoothFactor : ℚ
  zoomSpeed : ℚ
deriving DecidableEq, Repr

/-- First `CAMERA_CONFIG` variant in `camera-config.js` (folder band 25/20,
node band 8/25). -/
def CAMERA_CONFIG_v1 : CameraConfig :=
  { folder := { minDistance := 25, maxDistance := 20, minHeight := 10, maxHeight := 18 }
    folderInitialDistance := 70
    folderInitialHeight := 18
    node := { minDistance := 8, maxDistance := 25, minHeight := 6, maxHeight := 16 }
    nodeSelectDistance := 8
    deselectThreshold := 55
    smoothFactor := 4
    zoomSpeed := 15/100 }

/-- Second `CAMERA_CONFIG` variant in `camera-config.js` (folder band 25/70,
node band 8/80). -/
def CAMERA_CONFIG_v2 : CameraConfig :=
  { folder := { minDistance := 25, maxDistance := 70, minHeight := 10, maxHeight := 18 }
    folderInitialDistance := 70
    folderInitialHeight := 18
    node := { minDistance := 8, maxDistance := 80, minHeight := 6, maxHeight := 16 }
    nodeSelectDistance := 8
    deselectThreshold := 55
    smoothFactor := 4
    zoomSpeed := 15/100 }

/-- The discrete part of the mutable `state` object of `main.js` (the
continuous `current*` fields advanced by `updateCameraSmooth` are modelled
separately over `ℝ`, and `targetLookAt` — a derived 3D point — is out of the
scope of the distance claims). -/
structure GameState where
  currentFolderId : String
  selectedNodeId : Option String
  isTransitioning : Bool
  isWon : Bool
  currentPuzzleId : Option String
  currentTerminalNextFolder : Option String
  navigationHistory : List String
  puzzlesSolved : List (String × List String)
  cameraMode : String
  targetDistance : ℚ
  targetHeight : ℚ
  isInitialLoad : Bool
  lastFolderDistance : ℚ
  nodeZoomDistance : ℚ
deriving DecidableEq, Repr

/-- The initial `state` of `main.js` (lines 55-85). -/
def initialState (cfg : CameraConfig) : GameState :=
  { currentFolderId := "root_usr"
    selectedNodeId := none
    isTransitioning := false
    isWon := false
    currentPuzzleId := none
    currentTerminalNextFolder := none
    navigationHistory := ["root_usr"]
    puzzlesSolved := []
    cameraMode := "folder"
    targetDistance := cfg.folderInitialDistance
    targetHeight := cfg.folderInitialHeight
    isInitialLoad := true
    lastFolderDistance := cfg.folder.maxDistance
    nodeZoomDistance := cfg.nodeSelectDistance }

/-- `Array.prototype.indexOf` on a string list: first index, `-1` if absent. -/
def jsIndexOf : List String → String → ℤ
  | [], _ => -1
  | a :: as, x =>
      if a = x then 0
      else
        let r := jsIndexOf as x
        if r = -1 then -1 else r + 1

/-- The navigation-history update of `enterFolder` (main.js lines 1184-1193):
truncate to an existing occurrence, else append. -/
def enterFolderHist (hist : List String) (folderId : String) : List String :=
  let existingIndex := jsIndexOf hist folderId
  if existingIndex ≠ -1 then hist.take (existingIndex.toNat + 1)
  else hist ++ [folderId]

/-- `setCameraToFolder` (main.js lines 983-1005): retarget distance/height to
the folder-mode values (initial values only on the very first call), switch to
folder mode.  The `targetLookAt` assignment (folder centre) is not modelled. -/
def setCameraToFolder (cfg : CameraConfig) (st : GameState) : GameState :=
  let baseDistance := if st.isInitialLoad then cfg.folderInitialDistance else cfg.folder.maxDistance
  let baseHeight := if st.isInitialLoad then cfg.folderInitialHeight else cfg.folder.maxHeight
  { st with
    targetDistance := baseDistance
    targetHeight := baseHeight
    cameraMode := "folder"
    isInitialLoad := false }

/-- `deselectNode` (main.js lines 1070-1079): clear the selection, back to
folder mode (the emissive/status updates are rendering-side). -/
def deselectNode (st : GameState) : GameState :=
  { st with selectedNodeId := none, cameraMode := "folder" }

/-- The state updates of `showCurrentFolder` (main.js lines 700-774): reset
selection, folder mode, retarget camera.  The visibility set it computes is
modelled by `visibleFolders` below. -/
def showCurrentFolderState (cfg : CameraConfig) (st : GameState) : GameState :=
  setCameraToFolder cfg { st with selectedNodeId := none, cameraMode := "folder" }

/-- `enterFolder` (main.js lines 1179-1240), modelled as the state after the
enter animation has completed: history update, camera retarget, then at the end
of `animateEnter` the current folder flips, `showCurrentFolder` runs and
`clearSelection` clears the selection.  (`isTransitioning` is `true` strictly
between the call and the completion; the completed state has it `false`.) -/
def enterFolder (cfg : CameraConfig) (st : GameState) (folderId : String)
    (addToHistory : Bool := true) : GameState :=
  let st1 := { st with
    isTransitioning := true
    navigationHistory :=
      if addToHistory then enterFolderHist st.navigationHistory folderId
      else st.navigationHistory }
  let st2 := setCameraToFolder cfg st1
  let st3 := { st2 with currentFolderId := folderId, cameraMode := "folder", isTransitioning := false }
  deselectNode (showCurrentFolderState cfg st3)

/-- The state reached right after the synchronous part of `enterFolder` (before
the `animateEnter` callback finishes): transition in progress, history updated,
camera retargeted, current folder not yet flipped. -/
def enterFolderStart (cfg : CameraConfig) (st : GameState) (folderId : String)
    (addToHistory : Bool := true) : GameState :=
  setCameraToFolder cfg { st with
    isTransitioning := true
    navigationHistory :=
      if addToHistory then enterFolderHist st.navigationHistory folderId
      else st.navigationHistory }

/-- `navigateToHistoryIndex` (main.js lines 807-818): breadcrumb click; guarded
against transitions, dangling indices and re-entering the current folder; then
slices the history and enters without re-adding. -/
def navigateToHistoryIndex (cfg : CameraConfig) (st : GameState) (targetIndex : Nat) : GameState :=
  if st.isTransitioning ∨ st.isWon then st
  else
    match st.navigationHistory[targetIndex]? with
    | none => st
    | some targetFolderId =>
        if targetFolderId = "" ∨ targetFolderId = st.currentFolderId then st
        else
          enterFolder cfg
            { st with navigationHistory := st.navigationHistory.take (targetIndex + 1) }
            targetFolderId false

/-- `zoomCamera` (main.js lines 1035-1068). -/
def zoomCamera (cfg : CameraConfig) (st : GameState) (delta : ℚ) : GameState :=
  if st.cameraMode = "node" then
    let t := st.targetDistance + delta * cfg.zoomSpeed * 10
    if t > cfg.deselectThreshold ∧ jsTruthy st.selectedNodeId then
      -- deselectNode, switch to folder mode, restore the remembered folder zoom
      { (deselectNode st) with cameraMode := "folder", targetDistance := st.lastFolderDistance }
    else
      { st with targetDistance := max cfg.node.minDistance (min cfg.node.maxDistance t) }
  else
    let lfd := min st.targetDistance cfg.folder.maxDistance
    let t := st.targetDistance + delta * cfg.zoomSpeed * 10
    { st with
      lastFolderDistance := lfd
      targetDistance := max cfg.folder.minDistance (min cfg.folder.maxDistance t) }

/-- The state updates of `handleNodeClick` (main.js lines 1084-1128): select
the node, node mode, zoom target to the node-select distance. -/
def handleNodeClick (st : GameState) (nodeId : String) : GameState :=
  { st with
    selectedNodeId := some nodeId
    cameraMode := "node"
    targetDistance := st.nodeZoomDistance }

/-- `getPuzzleId` (main.js lines 1770-1774): all terminals share one puzzle. -/
def getPuzzleId (_node : Node) : String :=
  "root_auth"

/-- The keys of the `PUZZLES` table (main.js lines 1473-1487). -/
def PUZZLE_IDS : List String := ["root_auth"]

/-- `isPuzzleSolved` (main.js lines 1765-1768):
`state.puzzlesSolved[folderId]?.[puzzleId] === true`. -/
def isPuzzleSolved (st : GameState) (folderId puzzleId : String) : Bool :=
  match st.puzzlesSolved.find? (fun e => e.1 = folderId) with
  | some e => puzzleId ∈ e.2
  | none => false

/-- Record `state.puzzlesSolved[folderId][puzzleId] = true` on the
association-list model of the solved map. -/
def puzzlesSolvedAdd (m : List (String × List String)) (folderId puzzleId : String) :
    List (String × List String) :=
  match m.find? (fun e => e.1 = folderId) with
  | some _ =>
      m.map (fun e => if e.1 = folderId then (e.1, if puzzleId ∈ e.2 then e.2 else puzzleId :: e.2) else e)
  | none => (folderId, [puzzleId]) :: m

/-- `unlockPuzzle` (main.js lines 1639-1654): bail out on an unknown puzzle id,
record the solve under the current folder, then enter
`nextFolderId || state.currentTerminalNextFolder` when truthy. -/
def unlockPuzzle (cfg : CameraConfig) (st : GameState) (puzzleId : String)
    (nextFolderId : Option String) : GameState :=
  if puzzleId ∈ PUZZLE_IDS then
    let st1 := { st with puzzlesSolved := puzzlesSolvedAdd st.puzzlesSolved st.currentFolderId puzzleId }
    let destinationFolder := if jsTruthy nextFolderId then nextFolderId else st.currentTerminalNextFolder
    match destinationFolder with
    | some d => if d = "" then st1 else enterFolder cfg st1 d
    | none => st1
  else st

/-- `triggerTrap` (main.js lines 1281-1314), modelled on the discrete state:
`back` enters the first folder one depth shallower (after a timeout);
`scramble` is camera jitter only; `lockout` pulses `isTransitioning` and
restores it after its timeout — neither touches the discrete state we track.
(When the current folder id is dangling the JS would throw reading `.depth`;
that situation is unreachable from the initial state and modelled as a no-op.) -/
def triggerTrap (cfg : CameraConfig) (g : Graph) (st : GameState) (effect : Option String) :
    GameState :=
  if effect = some "back" then
    match findFolder g st.currentFolderId with
    | none => st
    | some folder =>
        match g.find? (fun f => (f.depth : ℤ) = (folder.depth : ℤ) - 1) with
        | some prevFolder => enterFolder cfg st prevFolder.id
        | none => st
  else st

/-- Result of a double click, mirroring which branch of
`handleNodeDoubleClick` ran (the lore/clue/terminal overlays and the deny
flash are DOM/rendering collaborators). -/
inductive ClickResult where
  | loreShown
  | clueShown
  | terminalShown
  | entered (folderId : String)
  | won
  | trapTriggered
  | denied
  | nothing
deriving DecidableEq, Repr

/-- `handleNodeDoubleClick` (main.js lines 1134-1177): dispatch on the node
type in source order (lore, clue, terminal-with-puzzle-gate, enterable,
trap, redHerring). -/
def handleNodeDoubleClick (cfg : CameraConfig) (g : Graph) (st : GameState) (node : Node) :
    GameState × ClickResult :=
  if node.type = "lore" then (st, ClickResult.loreShown)
  else if node.type = "clue" then (st, ClickResult.clueShown)
  else if node.type = "terminal" then
    if isPuzzleSolved st st.currentFolderId (getPuzzleId node) then
      match jsNextId node with
      | some nf => (enterFolder cfg st nf, ClickResult.entered nf)
      | none => (st, ClickResult.nothing)
    else
      ({ st with
          currentPuzzleId := some (getPuzzleId node)
          currentTerminalNextFolder := node.nextFolderId }, ClickResult.terminalShown)
  else if node.enterable then
    match node.nextFolderId with
    | none => ({ st with isWon := true }, ClickResult.won)
    | some nf => (enterFolder cfg st nf, ClickResult.entered nf)
  else if node.type = "trap" then (triggerTrap cfg g st node.trapEffect, ClickResult.trapTriggered)
  else if node.type = "redHerring" then (st, ClickResult.denied)
  else (st, ClickResult.nothing)

/-- One step of the BFS body of `showCurrentFolder` (main.js lines 724-737):
walk the nodes of the dequeued folder, and for each truthy `nextFolderId` not
yet visited, add it to the visited/shown set and enqueue it
(`visited` and `foldersToShow` receive exactly the same additions and start
from the same history set, so a single `Finset` models both). -/
def pushSuccs : List Node → Finset String → List String → Finset String × List String
  | [], shown, queue => (shown, queue)
  | n :: ns, shown, queue =>
      match jsNextId n with
      | some nf =>
          if nf ∈ shown then pushSuccs ns shown queue
          else pushSuccs ns (insert nf shown) (queue ++ [nf])
      | none => pushSuccs ns shown queue

/-- The `while (queue.length > 0)` loop of `showCurrentFolder`, with explicit
fuel (the JS loop terminates because every enqueue is guarded by the visited
set; `visibleFolders` supplies fuel provably larger than the total number of
iterations). -/
def bfsLoop (g : Graph) : Nat → List String → Finset String → Finset String
  | 0, _, shown => shown
  | _ + 1, [], shown => shown
  | fuel + 1, f :: rest, shown =>
      let step := pushSuccs (folderNodes g f) shown rest
      bfsLoop g fuel step.2 step.1

/-- Every truthy `nextFolderId` occurring anywhere in the graph. -/
def allEdgeTargets (g : Graph) : Finset String :=
  ((g.map (fun fo => fo.nodes.filterMap jsNextId)).flatten).toFinset

/-- The `foldersToShow` set computed by `showCurrentFolder` (main.js lines
714-737): the navigation history plus everything reachable from it via
`nextFolderId` edges.  Platforms, floor labels and node meshes are shown
exactly for this set, and the raycast targets are rebuilt from it. -/
def visibleFolders (g : Graph) (hist : List String) : Finset String :=
  bfsLoop g (hist.length + 2 * (allEdgeTargets g).card) hist hist.toFinset

/-- `Math.ceil(Math.sqrt n)` for a natural number (exact for the node counts
involved). -/
def intCeilSqrt (n : Nat) : Nat :=
  if Nat.sqrt n * Nat.sqrt n = n then Nat.sqrt n else Nat.sqrt n + 1

/-- A JS division: `none` models the non-finite result (`NaN` or `±Infinity`)
produced when the divisor is zero. -/
def jsDiv (a b : ℚ) : Option ℚ :=
  if b = 0 then none else some (a / b)

/-- `Math.ceil` composed with a possibly non-finite value (`Math.ceil NaN` is
`NaN`). -/
def jsCeil (a : Option ℚ) : Option ℤ :=
  a.map (fun q => Int.ceil q)

/-- The per-folder geometry computed by `createPlatform` (main.js lines
359-401): grid shape, grid footprint, platform footprint, depth scale.
`rows = Math.ceil(numNodes / cols)` is `NaN` when `cols = 0`, which poisons
`gridDepth`, `depth` and `finalDepth`. -/
structure PlatformGeom where
  cols : Nat
  rows : Option ℤ
  gridWidth : ℚ
  gridDepth : Option ℚ
  width : ℚ
  depth : Option ℚ
  finalWidth : ℚ
  finalDepth : Option ℚ
deriving DecidableEq, Repr

/-- `CONFIG.node.size.w` (main.js line 35). -/
def nodeSizeW : ℚ := 5

/-- `CONFIG.node.size.d` (main.js line 35). -/
def nodeSizeD : ℚ := 5

/-- `CONFIG.node.spacing` (main.js line 36). -/
def nodeSpacing : ℚ := 2

/-- `createPlatform` geometry (main.js lines 359-390). -/
def createPlatform (folder : Folder) : PlatformGeom :=
  let numNodes := folder.nodes.length
  let cols := intCeilSqrt numNodes
  let rows := jsCeil (jsDiv numNodes cols)
  let gap := nodeSpacing
  let padding := gap * 2
  let gridWidth : ℚ := cols * nodeSizeW + ((cols : ℚ) - 1) * gap
  let gridDepth : Option ℚ := rows.map (fun r => r * nodeSizeD + ((r : ℚ) - 1) * gap)
  let width := gridWidth + padding * 2
  let depth := gridDepth.map (fun d => d + padding * 2)
  let scale : ℚ := (92 / 100) ^ folder.depth
  { cols := cols
    rows := rows
    gridWidth := gridWidth
    gridDepth := gridDepth
    width := width
    depth := depth
    finalWidth := width * scale
    finalDepth := depth.map (fun d => d * scale) }

/-- The per-folder platform width of `calculateFolderPositions` (main.js lines
307-319); this first pass involves no division. -/
def folderWidth (folder : Folder) : ℚ :=
  let numNodes := folder.nodes.length
  let cols := intCeilSqrt numNodes
  let gap := nodeSpacing
  let padding := gap * 2
  let gridWidth : ℚ := cols * nodeSizeW + ((cols : ℚ) - 1) * gap
  (gridWidth + padding * 2) * ((92 / 100) ^ folder.depth)

/-- The continuous camera fields advanced once per rendered frame
(`state.currentLookAt/currentDistance/currentHeight/cameraYaw/cameraPitch`
with their targets), over `ℝ` because the smoothing law uses `Math.exp`. -/
structure SmoothState where
  currentLookAtX : ℝ
  currentLookAtY : ℝ
  currentLookAtZ : ℝ
  targetLookAtX : ℝ
  targetLookAtY : ℝ
  targetLookAtZ : ℝ
  currentDistance : ℝ
  targetDistance : ℝ
  currentHeight : ℝ
  targetHeight : ℝ
  cameraYaw : ℝ
  cameraPitch : ℝ
  isLooking : Bool

/-- The per-frame smoothing factor `1 - Math.exp(-delta * CAMERA_CONFIG.smoothFactor)`
(main.js line 952; `smoothFactor` is 4 in both config variants). -/
noncomputable def smoothStep (delta : ℝ) : ℝ :=
  1 - Real.exp (-delta * 4)

/-- `updateCameraSmooth` (main.js lines 951-981) restricted to the state it
mutates: lerp every `current*` field toward its target by `smoothStep delta`,
and when not looking recentre yaw/pitch by twice that factor.  (The derived
camera world position and the floor clamp act on the Three.js camera object,
not on `state`.) -/
noncomputable def updateCameraSmooth (delta : ℝ) (st : SmoothState) : SmoothState :=
  let s := smoothStep delta
  { st with
    currentLookAtX := st.currentLookAtX + (st.targetLookAtX - st.currentLookAtX) * s
    currentLookAtY := st.currentLookAtY + (st.targetLookAtY - st.currentLookAtY) * s
    currentLookAtZ := st.currentLookAtZ + (st.targetLookAtZ - st.currentLookAtZ) * s
    currentDistance := st.currentDistance + (st.targetDistance - st.currentDistance) * s
    currentHeight := st.currentHeight + (st.targetHeight - st.currentHeight) * s
    cameraYaw := if st.isLooking then st.cameraYaw else st.cameraYaw + (0 - st.cameraYaw) * s * 2
    cameraPitch := if st.isLooking then st.cameraPitch else st.cameraPitch + (0 - st.cameraPitch) * s * 2 }

/-- A navigation event of a session: a double-click enter through a node edge
of the current folder (covering plain enterable nodes, solved terminals and
`unlockPuzzle`), a breadcrumb click (`navigateToHistoryIndex`), or a `back`
trap firing (`triggerTrap`). -/
inductive NavEvent where
  | nodeEnter (folderId : String)
  | breadcrumb (targetIndex : Nat)
  | trapBack
deriving DecidableEq, Repr

/-- One completed navigation event.  `nodeEnter` is guarded by the existence
of a node on some currently *visible* platform whose `nextFolderId` is the
destination: `showCurrentFolder` (main.js lines 765-771) rebuilds the raycast
targets from the nodes of every folder in the visible set, so a double click
can enter through a node of any visible folder, not only the current one. -/
def navStep (cfg : CameraConfig) (g : Graph) (st : GameState) : NavEvent → GameState
  | NavEvent.nodeEnter f =>
      if ∃ fid ∈ visibleFolders g st.navigationHistory,
          ∃ n ∈ folderNodes g fid, jsNextId n = some f then enterFolder cfg st f
      else st
  | NavEvent.breadcrumb i => navigateToHistoryIndex cfg st i
  | NavEvent.trapBack => triggerTrap cfg g st (some "back")

/-- Run a session tail from a given state. -/
def runNavFrom (cfg : CameraConfig) (g : Graph) (st : GameState) : List NavEvent → GameState
  | [] => st
  | e :: es => runNavFrom cfg g (navStep cfg g st e) es

/-- Run a session from the initial state. -/
def runNav (cfg : CameraConfig) (g : Graph) (events : List NavEvent) : GameState :=
  runNavFrom cfg g (initialState cfg) events

/-- The current-folder ids reached after each event of a session tail. -/
def navTrace (cfg : CameraConfig) (g : Graph) (st : GameState) : List NavEvent → List String
  | [] => []
  | e :: es =>
      let st2 := navStep cfg g st e
      st2.currentFolderId :: navTrace cfg g st2 es

/-- Every folder ever current during a session (the initial folder included). -/
def sessionVisited (cfg : CameraConfig) (g : Graph) (events : List NavEvent) : List String :=
  "root_usr" :: navTrace cfg g (initialState cfg) events

/-- Reachability from the history set along truthy `nextFolderId` edges: the
specification of the set `showCurrentFolder`'s BFS computes. -/
inductive Reach (g : Graph) (hist : List String) : String → Prop where
  | base : ∀ {f : String}, f ∈ hist → Reach g hist f
  | step : ∀ {f nf : String}, Reach g hist f → nf ∈ succIds g f → Reach g hist nf

/-- Every history entry after the first was reachable (via `nextFolderId`
edges) from the prefix before it at the moment it was appended: this is the
shape real histories have, because every folder entered by a double click was
a node destination on some platform visible from the then-current history. -/
def prefixReach (g : Graph) (hist : List String) : Prop :=
  ∀ (i : Nat) (x : String), 0 < i → hist[i]? = some x → Reach g (hist.take i) x

/-- The navigation invariant maintained between completed navigation events:
the history is nonempty, ends at the current folder, each entry was reachable
from the prefix before it, and no transition or win is pending. -/
def NavInv (g : Graph) (st : GameState) : Prop :=
  st.navigationHistory ≠ [] ∧
  st.navigationHistory.getLast? = some st.currentFolderId ∧
  prefixReach g st.navigationHistory ∧
  st.isTransitioning = false ∧ st.isWon = false

/-! ### Concrete instances (a spec-legal graph and sessions; `folders.json`
itself is not among the sources, so witness sessions use a small graph drawn
from the spec data model: folders with depths, `nextFolderId` edges, a trap
node with the `back` effect, a terminal node). -/

/-- An enterable node of the root folder leading to folder `a`. -/
def exNodeRootToA : Node :=
  { id := "n_root_a", type := "plain", enterable := true, nextFolderId := some "a", trapEffect := none }

/-- An enterable node of folder `a` leading to folder `c`. -/
def exNodeAToC : Node :=
  { id := "n_a_c", type := "plain", enterable := true, nextFolderId := some "c", trapEffect := none }

/-- A trap node with the `back` effect, hosted by folder `c`. -/
def exTrapNode : Node :=
  { id := "n_trap", type := "trap", enterable := false, nextFolderId := none, trapEffect := some "back" }

/-- A terminal node of the root folder leading to folder `a`. -/
def exTerminalNode : Node :=
  { id := "n_term", type := "terminal", enterable := true, nextFolderId := some "a", trapEffect := none }

/-- An enterable node of the root folder whose destination is the root folder
itself (cycles are legal in the graph data model). -/
def exSelfLoopNode : Node :=
  { id := "n_self", type := "plain", enterable := true, nextFolderId := some "root_usr", trapEffect := none }

/-- Example graph: `root_usr` (depth 0) links to `a` (depth 1) which links to
`c` (depth 2); `b` (depth 1) precedes `a` in iteration order and has no edges,
so the `back` trap of `c` scans to `b`, not to `a`. -/
def exGraph : Graph :=
  [ { id := "root_usr", name := "/usr", depth := 0, nodes := [exNodeRootToA, exTerminalNode] },
    { id := "b", name := "/b", depth := 1, nodes := [] },
    { id := "a", name := "/a", depth := 1, nodes := [exNodeAToC] },
    { id := "c", name := "/c", depth := 2, nodes := [exTrapNode] } ]

/-- A single-folder graph whose only node loops back to the current folder. -/
def exSelfGraph : Graph :=
  [ { id := "root_usr", name := "/usr", depth := 0, nodes := [exSelfLoopNode] } ]

/-- A session using only edge-following navigation and breadcrumbs. -/
def exEventsOk : List NavEvent :=
  [NavEvent.nodeEnter "a", NavEvent.nodeEnter "c", NavEvent.breadcrumb 0]

/-- A session in which the `back` trap of `c` fires (appending the
edge-unconnected folder `b` to the history) before a breadcrumb jump to the
root. -/
def exEventsTrap : List NavEvent :=
  [NavEvent.nodeEnter "a", NavEvent.nodeEnter "c", NavEvent.trapBack, NavEvent.breadcrumb 0]

/-- The state after entering `a` and then `c` from the initial state. -/
def exStateAtC : GameState :=
  runNav CAMERA_CONFIG_v2 exGraph [NavEvent.nodeEnter "a", NavEvent.nodeEnter "c"]

/-- A node-mode state with a selection, zoom target 50 and a remembered
folder-mode distance of 42 (reachable under the second config variant). -/
def exNodeModeState : GameState :=
  { initialState CAMERA_CONFIG_v2 with
    cameraMode := "node"
    selectedNodeId := some "n_root_a"
    targetDistance := 50
    lastFolderDistance := 42
    isInitialLoad := false }

/-- A folder-mode state zoomed to distance 30 after the initial load. -/
def exFolderModeState : GameState :=
  { initialState CAMERA_CONFIG_v2 with targetDistance := 30, isInitialLoad := false }

/-- The state right after `init` ran `showCurrentFolder` once. -/
def exAfterInit : GameState :=
  showCurrentFolderState CAMERA_CONFIG_v2 (initialState CAMERA_CONFIG_v2)

/-- Select a node (zoom target becomes the node-select distance 8), deselect
by clicking empty space (folder mode, distance kept), then wheel once in
folder mode: this records `lastFolderDistance = min 8 70 = 8`, below the
folder band's minimum. -/
def exDriftFolderState : GameState :=
  zoomCamera CAMERA_CONFIG_v2 (deselectNode (handleNodeClick exAfterInit "n_root_a")) 2

/-- Re-select a node from the drifted folder state: node mode at distance 8
with `lastFolderDistance = 8` remembered. -/
def exDriftNodeState : GameState :=
  handleNodeClick exDriftFolderState "n_root_a"

/-- An empty folder (zero nodes) at depth 0. -/
def exEmptyFolder : Folder :=
  { id := "empty", name := "/empty", depth := 0, nodes := [] }

/-- A smooth-camera state whose yaw is 1/2 with look-around released, all
other fields at rest. -/
noncomputable def exYawState : SmoothState :=
  { currentLookAtX := 0, currentLookAtY := 0, currentLookAtZ := 0
    targetLookAtX := 0, targetLookAtY := 0, targetLookAtZ := 0
    currentDistance := 0, targetDistance := 0
    currentHeight := 0, targetHeight := 0
    cameraYaw := 1/2, cameraPitch := 0, isLooking := false }

/-- The initial state after `unlockPuzzle` has recorded a solve for the shared
puzzle while in the root folder (no destination, so no navigation). -/
def exSolvedState : GameState :=
  unlockPuzzle CAMERA_CONFIG_v2 (initialState CAMERA_CONFIG_v2) "root_auth" none

/-! ### Basic facts about `jsIndexOf` and `enterFolderHist` -/

theorem jsIndexOf_neg_one_or_nonneg (l : List String) (x : String) :
    jsIndexOf l x = -1 ∨ 0 ≤ jsIndexOf l x := by
  induction l with
  | nil => exact Or.inl rfl
  | cons a as ih =>
      by_cases hax : a = x
      · right
        simp [jsIndexOf, hax]
      · rcases ih with h | h
        · left
          simp [jsIndexOf, hax, h]
        · right
          by_cases hr : jsIndexOf as x = -1
          · omega
          · simp only [jsIndexOf, hax, if_false, hr, if_neg, ite_false]
            omega

theorem jsIndexOf_eq_neg_one_iff (l : List String) (x : String) :
    jsIndexOf l x = -1 ↔ x ∉ l := by
  induction l with
  | nil => simp [jsIndexOf]
  | cons a as ih =>
      by_cases hax : a = x
      · simp [jsIndexOf, hax]
      · rcases jsIndexOf_neg_one_or_nonneg as x with h | h
        · simp [jsIndexOf, hax, h, ih.mp h, Ne.symm hax]
        · have hne : jsIndexOf as x ≠ -1 := by omega
          have hmem : x ∈ as := by
            by_contra hx
            exact hne (ih.mpr hx)
          simp only [jsIndexOf, hax, if_false, hne, ite_false]
          constructor
          · intro hcontra
            omega
          · intro hcontra
            exact absurd (List.mem_cons_of_mem a hmem) hcontra

theorem jsIndexOf_getElem (l : List String) (x : String) (hmem : x ∈ l) :
    l[(jsIndexOf l x).toNat]? = some x := by
  induction l with
  | nil => cases hmem
  | cons a as ih =>
      by_cases hax : a = x
      · simp [jsIndexOf, hax]
      · have hmem' : x ∈ as := by
          rcases List.mem_cons.mp hmem with h | h
          · exact absurd h.symm hax
          · exact h
        have hne : jsIndexOf as x ≠ -1 :=
          fun h => ((jsIndexOf_eq_neg_one_iff as x).mp h) hmem' 
        have hnn : 0 ≤ jsIndexOf as x := by
          rcases jsIndexOf_neg_one_or_nonneg as x with h | h
          · exact absurd h hne
          · exact h
        have htn : (jsIndexOf as x + 1).toNat = (jsIndexOf as x).toNat + 1 := by omega
        simp only [jsIndexOf, hax, if_false, hne, ite_false, htn, List.getElem?_cons_succ]
        exact ih hmem'

theorem jsIndexOf_of_nodup_getElem (l : List String) (x : String) (i : Nat)
    (hnd : l.Nodup) (hget : l[i]? = some x) : jsIndexOf l x = i := by
  induction l generalizing i with
  | nil => simp at hget
  | cons a as ih =>
      rcases List.nodup_cons.mp hnd with ⟨hnotmem, hnd'⟩
      cases i with
      | zero =>
          simp only [List.getElem?_cons_zero, Option.some.injEq] at hget
          simp [jsIndexOf, hget]
      | succ j =>
          simp only [List.getElem?_cons_succ] at hget
          have hmem : x ∈ as := by
            have := List.getElem?_eq_some_iff.mp hget
            rcases this with ⟨hj, hx⟩
            exact hx ▸ List.getElem_mem hj
          have hax : a ≠ x := fun h => hnotmem (h ▸ hmem)
          have hr := ih j hnd' hget
          have hne : jsIndexOf as x ≠ -1 := by omega
          simp only [jsIndexOf, hax, if_false, hne, ite_false, hr]
          omega

theorem enterFolderHist_of_mem (l : List String) (x : String) (hmem : x ∈ l) :
    enterFolderHist l x = l.take ((jsIndexOf l x).toNat + 1) := by
  have hne : jsIndexOf l x ≠ -1 :=
    fun h => ((jsIndexOf_eq_neg_one_iff l x).mp h) hmem
  simp [enterFolderHist, hne]

theorem enterFolderHist_of_not_mem (l : List String) (x : String) (hmem : x ∉ l) :
    enterFolderHist l x = l ++ [x] := by
  have h := (jsIndexOf_eq_neg_one_iff l x).mpr hmem
  simp [enterFolderHist, h]

theorem enterFolderHist_nodup (l : List String) (x : String) (hnd : l.Nodup) :
    (enterFolderHist l x).Nodup := by
  by_cases hmem : x ∈ l
  · rw [enterFolderHist_of_mem l x hmem]
    exact List.Nodup.sublist (List.take_sublist _ _) hnd
  · rw [enterFolderHist_of_not_mem l x hmem]
    simp [List.nodup_append, hnd, hmem]

/-! ### Effect of the navigation functions on the tracked fields -/

theorem enterFolder_navigationHistory (cfg : CameraConfig) (st : GameState) (f : String)
    (add : Bool) :
    (enterFolder cfg st f add).navigationHistory =
      if add then enterFolderHist st.navigationHistory f else st.navigationHistory := rfl

theorem enterFolder_currentFolderId (cfg : CameraConfig) (st : GameState) (f : String)
    (add : Bool) : (enterFolder cfg st f add).currentFolderId = f := rfl

theorem enterFolder_isTransitioning (cfg : CameraConfig) (st : GameState) (f : String)
    (add : Bool) : (enterFolder cfg st f add).isTransitioning = false := rfl

theorem enterFolder_isWon (cfg : CameraConfig) (st : GameState) (f : String)
    (add : Bool) : (enterFolder cfg st f add).isWon = st.isWon := rfl

theorem enterFolder_puzzlesSolved (cfg : CameraConfig) (st : GameState) (f : String)
    (add : Bool) : (enterFolder cfg st f add).puzzlesSolved = st.puzzlesSolved := rfl

/-- One navigation event preserves duplicate-freeness of the history. -/
theorem navStep_hist_nodup (cfg : CameraConfig) (g : Graph) (st : GameState) (e : NavEvent)
    (hnd : st.navigationHistory.Nodup) : (navStep cfg g st e).navigationHistory.Nodup := by
  cases e with
  | nodeEnter f =>
      simp only [navStep]
      split
      · rw [enterFolder_navigationHistory]
        simpa using enterFolderHist_nodup _ _ hnd
      · exact hnd
  | breadcrumb i =>
      simp only [navStep, navigateToHistoryIndex]
      split
      · exact hnd
      · split
        · exact hnd
        · split
          · exact hnd
          · rw [enterFolder_navigationHistory]
            simpa using List.Nodup.sublist (List.take_sublist _ _) hnd
  | trapBack =>
      simp only [navStep, triggerTrap]
      split
      · split
        · exact hnd
        · split
          · rw [enterFolder_navigationHistory]
            simpa using enterFolderHist_nodup _ _ hnd
          · exact hnd
      · exact hnd

/-- Duplicate-freeness of the history holds in every reachable session state. -/
theorem runNavFrom_hist_nodup (cfg : CameraConfig) (g : Graph) :
    ∀ (events : List NavEvent) (st : GameState), st.navigationHistory.Nodup →
      (runNavFrom cfg g st events).navigationHistory.Nodup := by
  intro events
  induction events with
  | nil => intro st hnd; exact hnd
  | cons e es ih =>
      intro st hnd
      exact ih _ (navStep_hist_nodup cfg g st e hnd)

theorem runNav_hist_nodup (cfg : CameraConfig) (g : Graph) (events : List NavEvent) :
    (runNav cfg g events).navigationHistory.Nodup := by
  apply runNavFrom_hist_nodup
  simp [initialState]

/-- C3: on every reachable history, entering a folder that sits at index `i`
truncates to exactly the prefix of length `i + 1` (any `i`, the root
included). -/
theorem C3_enter_revisited_folder_truncates (cfg : CameraConfig) (g : Graph)
    (events : List NavEvent) (i : Nat) (f : String)
    (hget : (runNav cfg g events).navigationHistory[i]? = some f) :
    (enterFolder cfg (runNav cfg g events) f true).navigationHistory =
      (runNav cfg g events).navigationHistory.take (i + 1) := by
  have hnd := runNav_hist_nodup cfg g events
  have hidx := jsIndexOf_of_nodup_getElem _ _ _ hnd hget
  have hmem : f ∈ (runNav cfg g events).navigationHistory := by
    rcases List.getElem?_eq_some_iff.mp hget with ⟨hi, hx⟩
    exact hx ▸ List.getElem_mem hi
  rw [enterFolder_navigationHistory]
  simp only [if_pos rfl, ite_true]
  rw [enterFolderHist_of_mem _ _ hmem, hidx]
  simp

/-- Witness for C3: in the session `root_usr → a → c`, re-entering `a`
(present at index 1) truncates the history `[root_usr, a, c]` to
`[root_usr, a]`. -/
theorem C3_enter_revisited_folder_truncates_witness :
    exStateAtC.navigationHistory[1]? = some "a" ∧
      (enterFolder CAMERA_CONFIG_v2 exStateAtC "a" true).navigationHistory =
        exStateAtC.navigationHistory.take 2 := by
  constructor
  · decide
  · exact C3_enter_revisited_folder_truncates CAMERA_CONFIG_v2 exGraph
      [NavEvent.nodeEnter "a", NavEvent.nodeEnter "c"] 1 "a" (by decide)

/-! ### C6 — layout of an empty folder -/

/-- C6: for a folder with zero nodes, `createPlatform` computes
`cols = Math.ceil(Math.sqrt 0) = 0` and then `rows = Math.ceil(0 / 0)`, a
division by zero whose `NaN` poisons the grid depth and both platform depth
figures, instead of the minimal valid 1×1 grid the specification requires. -/
theorem C6_empty_folder_divides_by_zero :
    (createPlatform exEmptyFolder).cols = 0 ∧
    (createPlatform exEmptyFolder).rows = none ∧
    (createPlatform exEmptyFolder).gridDepth = none ∧
    (createPlatform exEmptyFolder).depth = none ∧
    (createPlatform exEmptyFolder).finalDepth = none := by
  refine ⟨rfl, rfl, rfl, rfl, rfl⟩

/-! ### C8 — deselect threshold against the node zoom band -/

/-- C8 (amended): the deselect threshold (55) is strictly greater than
`node.maxDistance` in the first config variant (25), but strictly smaller than
`node.maxDistance` in the second config variant (80). -/
theorem C8_deselect_threshold_vs_node_band :
    CAMERA_CONFIG_v1.deselectThreshold > CAMERA_CONFIG_v1.node.maxDistance ∧
    CAMERA_CONFIG_v2.deselectThreshold < CAMERA_CONFIG_v2.node.maxDistance := by
  constructor
  · decide
  · decide

/-- Counterexample to C8 as stated: in the second `CAMERA_CONFIG` variant the
deselect threshold (55) is not greater than `node.maxDistance` (80). -/
theorem C8_counterexample :
    ¬ CAMERA_CONFIG_v2.deselectThreshold > CAMERA_CONFIG_v2.node.maxDistance := by
  decide


/-! ### The three branches of `zoomCamera` -/

theorem zoomCamera_deselect (cfg : CameraConfig) (st : GameState) (delta : ℚ)
    (hmode : st.cameraMode = "node")
    (hthr : st.targetDistance + delta * cfg.zoomSpeed * 10 > cfg.deselectThreshold)
    (hsel : jsTruthy st.selectedNodeId = true) :
    zoomCamera cfg st delta =
      { st with selectedNodeId := none, cameraMode := "folder",
                targetDistance := st.lastFolderDistance } := by
  simp [zoomCamera, hmode, hthr, hsel, deselectNode]

theorem zoomCamera_node_clamp (cfg : CameraConfig) (st : GameState) (delta : ℚ)
    (hmode : st.cameraMode = "node")
    (hno : ¬ (st.targetDistance + delta * cfg.zoomSpeed * 10 > cfg.deselectThreshold ∧
              jsTruthy st.selectedNodeId = true)) :
    zoomCamera cfg st delta =
      { st with targetDistance := max cfg.node.minDistance (min cfg.node.maxDistance (st.targetDistance + delta * cfg.zoomSpeed * 10)) } := by
  simp only [zoomCamera, hmode, if_pos rfl, ite_true]
  rw [if_neg]
  simpa using hno

theorem zoomCamera_folder (cfg : CameraConfig) (st : GameState) (delta : ℚ)
    (hmode : st.cameraMode ≠ "node") :
    zoomCamera cfg st delta =
      { st with
        lastFolderDistance := min st.targetDistance cfg.folder.maxDistance
        targetDistance := max cfg.folder.minDistance (min cfg.folder.maxDistance (st.targetDistance + delta * cfg.zoomSpeed * 10)) } := by
  simp [zoomCamera, hmode]

/-! ### C2 — zoom clamping -/

/-- C2 (amended): `zoomCamera`'s clamping branches keep `targetDistance`
inside their mode's band whenever that band is nonempty (`minDistance ≤
maxDistance`, true of the second config variant but not of the first
variant's folder band): a folder-mode zoom lands in the folder band, and a
node-mode zoom that does not cross the deselect threshold lands in the node
band.  The deselect branch instead restores `lastFolderDistance` verbatim,
with no clamp — and that remembered value can lie outside the folder band on
reachable states, so the claim as stated fails there as well. -/
theorem C2_zoom_clamps_to_active_band (cfg : CameraConfig) (st : GameState) (delta : ℚ)
    (hf : cfg.folder.minDistance ≤ cfg.folder.maxDistance)
    (hn : cfg.node.minDistance ≤ cfg.node.maxDistance) :
    (st.cameraMode ≠ "node" →
      cfg.folder.minDistance ≤ (zoomCamera cfg st delta).targetDistance ∧
        (zoomCamera cfg st delta).targetDistance ≤ cfg.folder.maxDistance) ∧
    (st.cameraMode = "node" →
      ¬ (st.targetDistance + delta * cfg.zoomSpeed * 10 > cfg.deselectThreshold ∧
          jsTruthy st.selectedNodeId = true) →
      cfg.node.minDistance ≤ (zoomCamera cfg st delta).targetDistance ∧
        (zoomCamera cfg st delta).targetDistance ≤ cfg.node.maxDistance) ∧
    (st.cameraMode = "node" →
      st.targetDistance + delta * cfg.zoomSpeed * 10 > cfg.deselectThreshold →
      jsTruthy st.selectedNodeId = true →
      (zoomCamera cfg st delta).cameraMode = "folder" ∧
        (zoomCamera cfg st delta).targetDistance = st.lastFolderDistance) := by
  refine ⟨?_, ?_, ?_⟩
  · intro hmode
    rw [zoomCamera_folder cfg st delta hmode]
    exact ⟨le_max_left _ _, max_le hf (min_le_left _ _)⟩
  · intro hmode hno
    rw [zoomCamera_node_clamp cfg st delta hmode hno]
    exact ⟨le_max_left _ _, max_le hn (min_le_left _ _)⟩
  · intro hmode hthr hsel
    rw [zoomCamera_deselect cfg st delta hmode hthr hsel]
    exact ⟨rfl, rfl⟩

/-- Witness for C2: under the second config variant, a folder-mode wheel from
the zoomed state at distance 30 lands inside the folder band [25, 70]. -/
theorem C2_zoom_clamps_to_active_band_witness :
    (CAMERA_CONFIG_v2.folder.minDistance ≤ CAMERA_CONFIG_v2.folder.maxDistance ∧
      CAMERA_CONFIG_v2.node.minDistance ≤ CAMERA_CONFIG_v2.node.maxDistance ∧
      exFolderModeState.cameraMode ≠ "node") ∧
    (CAMERA_CONFIG_v2.folder.minDistance ≤
        (zoomCamera CAMERA_CONFIG_v2 exFolderModeState 10).targetDistance ∧
      (zoomCamera CAMERA_CONFIG_v2 exFolderModeState 10).targetDistance ≤
        CAMERA_CONFIG_v2.folder.maxDistance) :=
  ⟨⟨by decide, by decide, by decide⟩,
    (C2_zoom_clamps_to_active_band CAMERA_CONFIG_v2 exFolderModeState 10
      (by decide) (by decide)).1 (by decide)⟩

/-- Counterexample to C2 as stated, in both config variants: under the first
variant the folder band is empty (`minDistance 25 > 20 maxDistance`), so a
folder-mode zoom from the initial state returns in folder mode at 25, above
`maxDistance`; and under the second variant, from the reachable state
`exDriftNodeState` (select a node, deselect by clicking empty space, wheel
once in folder mode — recording `lastFolderDistance = min 8 70 = 8` — then
re-select the node), a wheel of delta 32 crosses the deselect threshold and
returns in folder mode with `targetDistance = 8`, below the folder band's
minimum 25. -/
theorem C2_counterexample :
    ((zoomCamera CAMERA_CONFIG_v1 (initialState CAMERA_CONFIG_v1) 0).cameraMode = "folder" ∧
      ¬ ((zoomCamera CAMERA_CONFIG_v1 (initialState CAMERA_CONFIG_v1) 0).targetDistance ≤
          CAMERA_CONFIG_v1.folder.maxDistance)) ∧
    ((zoomCamera CAMERA_CONFIG_v2 exDriftNodeState 32).cameraMode = "folder" ∧
      ¬ (CAMERA_CONFIG_v2.folder.minDistance ≤
          (zoomCamera CAMERA_CONFIG_v2 exDriftNodeState 32).targetDistance)) := by
  constructor
  · have hmode : (initialState CAMERA_CONFIG_v1).cameraMode ≠ "node" := by decide
    rw [zoomCamera_folder _ _ _ hmode]
    refine ⟨rfl, ?_⟩
    show ¬ max CAMERA_CONFIG_v1.folder.minDistance
        (min CAMERA_CONFIG_v1.folder.maxDistance
          ((initialState CAMERA_CONFIG_v1).targetDistance +
            0 * CAMERA_CONFIG_v1.zoomSpeed * 10)) ≤ CAMERA_CONFIG_v1.folder.maxDistance
    have harith : (initialState CAMERA_CONFIG_v1).targetDistance +
        0 * CAMERA_CONFIG_v1.zoomSpeed * 10 = 70 := by
      show (70 : ℚ) + 0 * (15/100) * 10 = 70
      norm_num
    rw [harith]
    decide
  · have hmode : exDriftNodeState.cameraMode = "node" := rfl
    have hsel : jsTruthy exDriftNodeState.selectedNodeId = true := rfl
    have htarget : exDriftNodeState.targetDistance = 8 := rfl
    have hthr : exDriftNodeState.targetDistance + 32 * CAMERA_CONFIG_v2.zoomSpeed * 10 >
        CAMERA_CONFIG_v2.deselectThreshold := by
      rw [htarget]
      show (8 : ℚ) + 32 * (15/100) * 10 > 55
      norm_num
    rw [zoomCamera_deselect _ _ _ hmode hthr hsel]
    refine ⟨rfl, ?_⟩
    show ¬ (CAMERA_CONFIG_v2.folder.minDistance ≤ exDriftNodeState.lastFolderDistance)
    have hlast : exDriftNodeState.lastFolderDistance = min (8 : ℚ) 70 := rfl
    rw [hlast]
    decide

/-! ### C5 — deselect-by-zoom restores the remembered folder distance -/

/-- C5: a node-mode zoom that pushes the target distance past the deselect
threshold while a node is selected deselects the node, switches to folder
mode and sets `targetDistance` to `lastFolderDistance` exactly; and
`lastFolderDistance` is precisely the folder-mode distance of the last
folder-mode zoom clamped to `folder.maxDistance` — folder-mode zooms record
`min targetDistance folder.maxDistance` and no other tracked operation
(node-mode zooms, node selection, folder retargeting) modifies it. -/
theorem C5_deselect_restores_folder_distance (cfg : CameraConfig) (st : GameState)
    (delta : ℚ) (nodeId : String) :
    (st.cameraMode = "node" → jsTruthy st.selectedNodeId = true →
      st.targetDistance + delta * cfg.zoomSpeed * 10 > cfg.deselectThreshold →
      zoomCamera cfg st delta =
        { st with selectedNodeId := none, cameraMode := "folder",
                  targetDistance := st.lastFolderDistance }) ∧
    (st.cameraMode = "folder" →
      (zoomCamera cfg st delta).lastFolderDistance = min st.targetDistance cfg.folder.maxDistance) ∧
    (st.cameraMode = "node" →
      (zoomCamera cfg st delta).lastFolderDistance = st.lastFolderDistance) ∧
    (handleNodeClick st nodeId).lastFolderDistance = st.lastFolderDistance ∧
    (setCameraToFolder cfg st).lastFolderDistance = st.lastFolderDistance := by
  refine ⟨?_, ?_, ?_, rfl, rfl⟩
  · intro hmode hsel hthr
    exact zoomCamera_deselect cfg st delta hmode hthr hsel
  · intro hmode
    rw [zoomCamera_folder cfg st delta (by simp [hmode])]
  · intro hmode
    by_cases hcond : st.targetDistance + delta * cfg.zoomSpeed * 10 > cfg.deselectThreshold ∧
        jsTruthy st.selectedNodeId = true
    · rw [zoomCamera_deselect cfg st delta hmode hcond.1 hcond.2]
    · rw [zoomCamera_node_clamp cfg st delta hmode hcond]

/-- In `exNodeModeState`, a delta of 10 pushes the accumulated zoom target
(50 + 10·0.15·10 = 65) past the deselect threshold (55). -/
theorem exNodeModeState_crosses_threshold :
    exNodeModeState.targetDistance + 10 * CAMERA_CONFIG_v2.zoomSpeed * 10 >
      CAMERA_CONFIG_v2.deselectThreshold := by
  show (50 : ℚ) + 10 * (15/100) * 10 > 55
  norm_num

/-- Witness for C5: the second config variant, node mode at zoom target 50
with remembered folder distance 42, delta 10 (so the accumulated target 65
crosses the threshold 55): the node is deselected and the folder-mode target
distance becomes 42. -/
theorem C5_deselect_restores_folder_distance_witness :
    (exNodeModeState.cameraMode = "node" ∧
      jsTruthy exNodeModeState.selectedNodeId = true ∧
      exNodeModeState.targetDistance + 10 * CAMERA_CONFIG_v2.zoomSpeed * 10 >
        CAMERA_CONFIG_v2.deselectThreshold) ∧
    zoomCamera CAMERA_CONFIG_v2 exNodeModeState 10 =
      { exNodeModeState with selectedNodeId := none, cameraMode := "folder",
                             targetDistance := exNodeModeState.lastFolderDistance } :=
  ⟨⟨rfl, rfl, exNodeModeState_crosses_threshold⟩,
    (C5_deselect_restores_folder_distance CAMERA_CONFIG_v2 exNodeModeState 10 "n_root_a").1
      rfl rfl exNodeModeState_crosses_threshold⟩

/-! ### C10 — one shared puzzle flag -/

theorem find?_map_update (m : List (String × List String)) (f p : String)
    (e0 : String × List String) (hfind : m.find? (fun e => e.1 = f) = some e0) :
    (m.map (fun e => if e.1 = f then (e.1, if p ∈ e.2 then e.2 else p :: e.2) else e)).find?
        (fun e => e.1 = f) = some (e0.1, if p ∈ e0.2 then e0.2 else p :: e0.2) := by
  induction m with
  | nil => simp at hfind
  | cons a m' ih =>
      by_cases ha : a.1 = f
      · rw [List.find?_cons_of_pos _ (by simpa using ha)] at hfind
        have hae : a = e0 := by injection hfind
        subst hae
        simp only [List.map_cons, if_pos ha]
        rw [List.find?_cons_of_pos]
        simpa using ha
      · rw [List.find?_cons_of_neg _ (by simpa using ha)] at hfind
        simp only [List.map_cons, if_neg ha]
        rw [List.find?_cons_of_neg _ (by simpa using ha)]
        exact ih hfind

theorem puzzlesSolvedAdd_solved (m : List (String × List String)) (f p : String) :
    ∃ e, (puzzlesSolvedAdd m f p).find? (fun e => e.1 = f) = some e ∧ p ∈ e.2 := by
  unfold puzzlesSolvedAdd
  cases hfind : m.find? (fun e => e.1 = f) with
  | none =>
      refine ⟨(f, [p]), ?_, by simp⟩
      rw [List.find?_cons_of_pos]
      simp
  | some e0 =>
      refine ⟨(e0.1, if p ∈ e0.2 then e0.2 else p :: e0.2),
        find?_map_update m f p e0 hfind, ?_⟩
      by_cases hp : p ∈ e0.2
      · simp [hp]
      · simp [hp]

/-- `unlockPuzzle` leaves exactly the recorded solved map, whatever navigation
follows. -/
theorem unlockPuzzle_puzzlesSolved (cfg : CameraConfig) (st : GameState)
    (next : Option String) :
    (unlockPuzzle cfg st "root_auth" next).puzzlesSolved =
      puzzlesSolvedAdd st.puzzlesSolved st.currentFolderId "root_auth" := by
  unfold unlockPuzzle
  rw [if_pos (show "root_auth" ∈ PUZZLE_IDS by decide)]
  cases hjs : (if jsTruthy next then next else st.currentTerminalNextFolder) with
  | none => simp [hjs]
  | some d =>
      simp only [hjs]
      by_cases hde : d = ""
      · simp [hde]
      · simp [hde, enterFolder_puzzlesSolved]

theorem isPuzzleSolved_after_unlock (cfg : CameraConfig) (st : GameState)
    (next : Option String) :
    isPuzzleSolved (unlockPuzzle cfg st "root_auth" next) st.currentFolderId "root_auth" = true := by
  obtain ⟨e, hfind, hmem⟩ :=
    puzzlesSolvedAdd_solved st.puzzlesSolved st.currentFolderId "root_auth"
  unfold isPuzzleSolved
  rw [unlockPuzzle_puzzlesSolved cfg st next, hfind]
  simpa using hmem

/-- C10: `getPuzzleId` is the constant `"root_auth"`, so all terminal nodes of
a folder share one solved flag: after `unlockPuzzle` records a solve in the
current folder, `isPuzzleSolved` holds for the puzzle id of every node, and a
double click on any solved terminal node with a truthy destination navigates
directly (and never reopens the terminal overlay). -/
theorem C10_shared_puzzle_gate (cfg : CameraConfig) (g : Graph) (st : GameState)
    (n n2 : Node) (next : Option String) (d : String) :
    getPuzzleId n = "root_auth" ∧
    isPuzzleSolved (unlockPuzzle cfg st "root_auth" next) st.currentFolderId
        (getPuzzleId n2) = true ∧
    (n.type = "terminal" → isPuzzleSolved st st.currentFolderId (getPuzzleId n) = true →
      jsNextId n = some d →
      handleNodeDoubleClick cfg g st n = (enterFolder cfg st d, ClickResult.entered d)) ∧
    (n.type = "terminal" → isPuzzleSolved st st.currentFolderId (getPuzzleId n) = true →
      (handleNodeDoubleClick cfg g st n).2 ≠ ClickResult.terminalShown) := by
  refine ⟨rfl, isPuzzleSolved_after_unlock cfg st next, ?_, ?_⟩
  · intro hty hsolved hnext
    unfold handleNodeDoubleClick
    rw [hty]
    rw [if_neg (by decide), if_neg (by decide), if_pos rfl, if_pos hsolved, hnext]
  · intro hty hsolved
    unfold handleNodeDoubleClick
    rw [hty]
    rw [if_neg (by decide), if_neg (by decide), if_pos rfl, if_pos hsolved]
    cases hjs : jsNextId n with
    | some nf => simp [hjs]
    | none => simp [hjs]

/-- Witness for C10: after solving in the root folder, double-clicking the
terminal node navigates straight to its destination `a`. -/
theorem C10_shared_puzzle_gate_witness :
    (exTerminalNode.type = "terminal" ∧
      isPuzzleSolved exSolvedState exSolvedState.currentFolderId
          (getPuzzleId exTerminalNode) = true ∧
      jsNextId exTerminalNode = some "a") ∧
    handleNodeDoubleClick CAMERA_CONFIG_v2 exGraph exSolvedState exTerminalNode =
      (enterFolder CAMERA_CONFIG_v2 exSolvedState "a", ClickResult.entered "a") :=
  ⟨⟨rfl, by decide, rfl⟩,
    (C10_shared_puzzle_gate CAMERA_CONFIG_v2 exGraph exSolvedState
        exTerminalNode exTerminalNode none "a").2.2.1 rfl (by decide) rfl⟩

/-! ### C9 — navigation to the current folder -/

/-- Re-entering the folder the history already ends with leaves the history
unchanged (the truncation lands on the last element). -/
theorem enterFolderHist_getLast (l : List String) (x : String) (hnd : l.Nodup)
    (hlast : l.getLast? = some x) : enterFolderHist l x = l := by
  have hne : l ≠ [] := by
    intro h
    rw [h] at hlast
    simp at hlast
  have hget : l[l.length - 1]? = some x := by
    rw [← List.getLast?_eq_getElem?]
    exact hlast
  have hmem : x ∈ l := by
    rcases List.getElem?_eq_some_iff.mp hget with ⟨hi, hx⟩
    exact hx ▸ List.getElem_mem hi
  have hidx := jsIndexOf_of_nodup_getElem l x (l.length - 1) hnd hget
  have hlen : 1 ≤ l.length := List.length_pos.mpr hne
  rw [enterFolderHist_of_mem l x hmem, hidx]
  have : ((l.length - 1 : ℕ) : ℤ).toNat + 1 = l.length := by omega
  rw [this]
  exact List.take_length l

/-- C9 (amended): a breadcrumb navigation whose target index holds the current
folder is ignored early with the whole state unchanged; but a double click on
an enterable node whose `nextFolderId` is the current folder is not guarded:
`enterFolder` runs (a transition starts and the camera is retargeted), though
the navigation history itself is unchanged because the truncation lands on the
last element. -/
theorem C9_navigation_to_current_folder (cfg : CameraConfig) (g : Graph) (st : GameState)
    (n : Node) (i : Nat) :
    (st.navigationHistory[i]? = some st.currentFolderId →
      navigateToHistoryIndex cfg st i = st) ∧
    (n.type ≠ "lore" → n.type ≠ "clue" → n.type ≠ "terminal" → n.enterable = true →
      n.nextFolderId = some st.currentFolderId →
      st.navigationHistory.Nodup →
      st.navigationHistory.getLast? = some st.currentFolderId →
      (handleNodeDoubleClick cfg g st n).1.navigationHistory = st.navigationHistory ∧
        (handleNodeDoubleClick cfg g st n).2 = ClickResult.entered st.currentFolderId) := by
  constructor
  · intro hget
    unfold navigateToHistoryIndex
    split_ifs with hguard
    · rfl
    · rw [hget]
      simp
  · intro hl hc ht hen hnext hnd hlast
    unfold handleNodeDoubleClick
    rw [if_neg hl, if_neg hc, if_neg ht, if_pos hen, hnext]
    refine ⟨?_, rfl⟩
    rw [enterFolder_navigationHistory]
    simpa using enterFolderHist_getLast _ _ hnd hlast

/-- Witness for C9: in the state reached at folder `c`, a breadcrumb click on
index 2 (which holds the current folder `c`) is a no-op, and a double click on
a self-loop node of the root folder keeps the history `["root_usr"]`. -/
theorem C9_navigation_to_current_folder_witness :
    (exStateAtC.navigationHistory[2]? = some exStateAtC.currentFolderId ∧
      navigateToHistoryIndex CAMERA_CONFIG_v2 exStateAtC 2 = exStateAtC) ∧
    ((handleNodeDoubleClick CAMERA_CONFIG_v2 exSelfGraph exFolderModeState
        exSelfLoopNode).1.navigationHistory = exFolderModeState.navigationHistory ∧
      (handleNodeDoubleClick CAMERA_CONFIG_v2 exSelfGraph exFolderModeState
        exSelfLoopNode).2 = ClickResult.entered exFolderModeState.currentFolderId) :=
  ⟨⟨by decide,
      (C9_navigation_to_current_folder CAMERA_CONFIG_v2 exGraph exStateAtC
        exSelfLoopNode 2).1 (by decide)⟩,
    (C9_navigation_to_current_folder CAMERA_CONFIG_v2 exSelfGraph exFolderModeState
        exSelfLoopNode 0).2 (by decide) (by decide) (by decide) rfl rfl (by decide) rfl⟩

/-- Counterexample to C9 as stated: a double click on an enterable node whose
destination equals the current folder is not detected and ignored — the
dispatch enters the (current) folder, and the camera zoom target changes from
30 to the folder maximum, so camera targets are not left unchanged. -/
theorem C9_counterexample :
    (handleNodeDoubleClick CAMERA_CONFIG_v2 exSelfGraph exFolderModeState
        exSelfLoopNode).2 = ClickResult.entered exFolderModeState.currentFolderId ∧
    (handleNodeDoubleClick CAMERA_CONFIG_v2 exSelfGraph exFolderModeState
        exSelfLoopNode).1.targetDistance ≠ exFolderModeState.targetDistance := by
  constructor
  · decide
  · decide

/-! ### C7 — trap effects and the history -/

/-- C7 (amended): the `scramble` and `lockout` trap effects leave the
navigation history unchanged, and so does `back` when no folder one depth
shallower exists; but when such a folder exists, `back` performs a real
`enterFolder` on it, truncating or extending the history. -/
theorem C7_trap_effects_on_history (cfg : CameraConfig) (g : Graph) (st : GameState)
    (effect : Option String) :
    (effect = some "scramble" → triggerTrap cfg g st effect = st) ∧
    (effect = some "lockout" → triggerTrap cfg g st effect = st) ∧
    (∀ cur, findFolder g st.currentFolderId = some cur →
      g.find? (fun f => (f.depth : ℤ) = (cur.depth : ℤ) - 1) = none →
      triggerTrap cfg g st (some "back") = st) ∧
    (∀ cur p, findFolder g st.currentFolderId = some cur →
      g.find? (fun f => (f.depth : ℤ) = (cur.depth : ℤ) - 1) = some p →
      (triggerTrap cfg g st (some "back")).navigationHistory =
        enterFolderHist st.navigationHistory p.id) := by
  refine ⟨?_, ?_, ?_, ?_⟩
  · intro he
    subst he
    unfold triggerTrap
    rw [if_neg (by decide)]
  · intro he
    subst he
    unfold triggerTrap
    rw [if_neg (by decide)]
  · intro cur hcur hnone
    unfold triggerTrap
    rw [if_pos rfl, hcur]
    dsimp only
    rw [hnone]
  · intro cur p hcur hsome
    unfold triggerTrap
    rw [if_pos rfl, hcur]
    dsimp only
    rw [hsome]
    rw [enterFolder_navigationHistory]
    simp

/-- Witness for C7: at folder `c` of the example graph, a `scramble` trap
leaves the state untouched. -/
theorem C7_trap_effects_on_history_witness :
    triggerTrap CAMERA_CONFIG_v2 exGraph exStateAtC (some "scramble") = exStateAtC :=
  (C7_trap_effects_on_history CAMERA_CONFIG_v2 exGraph exStateAtC (some "scramble")).1 rfl

/-- Counterexample to C7 as stated: double-clicking the `back` trap node of
folder `c` changes the navigation history (the scan finds `b`, the first
folder at depth 1, and enters it, appending it to the history). -/
theorem C7_counterexample :
    exStateAtC.navigationHistory = ["root_usr", "a", "c"] ∧
    (handleNodeDoubleClick CAMERA_CONFIG_v2 exGraph exStateAtC exTrapNode).1.navigationHistory ≠
      exStateAtC.navigationHistory := by
  constructor
  · decide
  · decide

/-! ### C4 — exponential camera smoothing -/

theorem smoothStep_pos (delta : ℝ) (h : 0 < delta) : 0 < smoothStep delta := by
  unfold smoothStep
  have hlt : Real.exp (-delta * 4) < 1 := Real.exp_lt_one_iff.mpr (by nlinarith)
  linarith

theorem smoothStep_lt_one (delta : ℝ) (_h : 0 < delta) : smoothStep delta < 1 := by
  unfold smoothStep
  have := Real.exp_pos (-delta * 4)
  linarith

/-- Per-field contraction of the iterated integrator: after `n` frames of a
fixed `delta`, the distance error is the initial error scaled by
`(1 - smoothStep delta)^n`, and the target is untouched. -/
theorem iterate_updateCameraSmooth_distance (delta : ℝ) (st : SmoothState) (n : ℕ) :
    ((updateCameraSmooth delta)^[n] st).currentDistance - st.targetDistance
        = (1 - smoothStep delta) ^ n * (st.currentDistance - st.targetDistance) ∧
      ((updateCameraSmooth delta)^[n] st).targetDistance = st.targetDistance := by
  induction n with
  | zero => simp
  | succ k ih =>
      rw [Function.iterate_succ_apply']
      constructor
      · have h1 : (updateCameraSmooth delta ((updateCameraSmooth delta)^[k] st)).currentDistance
            = ((updateCameraSmooth delta)^[k] st).currentDistance
              + (((updateCameraSmooth delta)^[k] st).targetDistance
                  - ((updateCameraSmooth delta)^[k] st).currentDistance) * smoothStep delta := rfl
        calc (updateCameraSmooth delta ((updateCameraSmooth delta)^[k] st)).currentDistance
              - st.targetDistance
            = (1 - smoothStep delta)
                * (((updateCameraSmooth delta)^[k] st).currentDistance - st.targetDistance) := by
              rw [h1, ih.2]; ring
          _ = (1 - smoothStep delta)
                * ((1 - smoothStep delta) ^ k * (st.currentDistance - st.targetDistance)) := by
              rw [ih.1]
          _ = (1 - smoothStep delta) ^ (k + 1) * (st.currentDistance - st.targetDistance) := by
              ring
      · exact ih.2

/-- C4 (amended): for every `delta > 0` the smoothing factor lies strictly
between 0 and 1; each call moves `currentDistance`, `currentHeight` and the
three `currentLookAt` components toward their targets by exactly that factor,
never overshooting or crossing the target, and iterating with a fixed delta
brings `currentDistance` within any positive epsilon of the target.  The
yaw/pitch self-centering uses twice the factor (`2 * smoothStep delta`), so it
obeys the same contraction law only while `2 * smoothStep delta ≤ 1`. -/
theorem C4_smoothing_moves_by_exact_factor (st : SmoothState) (delta : ℝ) (hdt : 0 < delta) :
    (0 < smoothStep delta ∧ smoothStep delta < 1) ∧
    ((updateCameraSmooth delta st).currentDistance - st.targetDistance
        = (1 - smoothStep delta) * (st.currentDistance - st.targetDistance) ∧
      (updateCameraSmooth delta st).currentHeight - st.targetHeight
        = (1 - smoothStep delta) * (st.currentHeight - st.targetHeight) ∧
      (updateCameraSmooth delta st).currentLookAtX - st.targetLookAtX
        = (1 - smoothStep delta) * (st.currentLookAtX - st.targetLookAtX) ∧
      (updateCameraSmooth delta st).currentLookAtY - st.targetLookAtY
        = (1 - smoothStep delta) * (st.currentLookAtY - st.targetLookAtY) ∧
      (updateCameraSmooth delta st).currentLookAtZ - st.targetLookAtZ
        = (1 - smoothStep delta) * (st.currentLookAtZ - st.targetLookAtZ)) ∧
    (|(updateCameraSmooth delta st).currentDistance - st.targetDistance|
        ≤ |st.currentDistance - st.targetDistance| ∧
      0 ≤ ((updateCameraSmooth delta st).currentDistance - st.targetDistance)
            * (st.currentDistance - st.targetDistance)) ∧
    (st.isLooking = false →
      (updateCameraSmooth delta st).cameraYaw = st.cameraYaw * (1 - 2 * smoothStep delta) ∧
      (updateCameraSmooth delta st).cameraPitch = st.cameraPitch * (1 - 2 * smoothStep delta)) ∧
    (∀ ε : ℝ, 0 < ε → ∃ n : ℕ,
      |((updateCameraSmooth delta)^[n] st).currentDistance - st.targetDistance| < ε) := by
  have hs0 := smoothStep_pos delta hdt
  have hs1 := smoothStep_lt_one delta hdt
  have hdist : (updateCameraSmooth delta st).currentDistance - st.targetDistance
      = (1 - smoothStep delta) * (st.currentDistance - st.targetDistance) := by
    show st.currentDistance + (st.targetDistance - st.currentDistance) * smoothStep delta
        - st.targetDistance = (1 - smoothStep delta) * (st.currentDistance - st.targetDistance)
    ring
  have hheight : (updateCameraSmooth delta st).currentHeight - st.targetHeight
      = (1 - smoothStep delta) * (st.currentHeight - st.targetHeight) := by
    show st.currentHeight + (st.targetHeight - st.currentHeight) * smoothStep delta
        - st.targetHeight = (1 - smoothStep delta) * (st.currentHeight - st.targetHeight)
    ring
  have hlx : (updateCameraSmooth delta st).currentLookAtX - st.targetLookAtX
      = (1 - smoothStep delta) * (st.currentLookAtX - st.targetLookAtX) := by
    show st.currentLookAtX + (st.targetLookAtX - st.currentLookAtX) * smoothStep delta
        - st.targetLookAtX = (1 - smoothStep delta) * (st.currentLookAtX - st.targetLookAtX)
    ring
  have hly : (updateCameraSmooth delta st).currentLookAtY - st.targetLookAtY
      = (1 - smoothStep delta) * (st.currentLookAtY - st.targetLookAtY) := by
    show st.currentLookAtY + (st.targetLookAtY - st.currentLookAtY) * smoothStep delta
        - st.targetLookAtY = (1 - smoothStep delta) * (st.currentLookAtY - st.targetLookAtY)
    ring
  have hlz : (updateCameraSmooth delta st).currentLookAtZ - st.targetLookAtZ
      = (1 - smoothStep delta) * (st.currentLookAtZ - st.targetLookAtZ) := by
    show st.currentLookAtZ + (st.targetLookAtZ - st.currentLookAtZ) * smoothStep delta
        - st.targetLookAtZ = (1 - smoothStep delta) * (st.currentLookAtZ - st.targetLookAtZ)
    ring
  refine ⟨⟨hs0, hs1⟩, ⟨hdist, hheight, hlx, hly, hlz⟩, ⟨?_, ?_⟩, ?_, ?_⟩
  · rw [hdist, abs_mul, abs_of_nonneg (by linarith : (0:ℝ) ≤ 1 - smoothStep delta)]
    nlinarith [abs_nonneg (st.currentDistance - st.targetDistance)]
  · rw [hdist]
    nlinarith [sq_nonneg (st.currentDistance - st.targetDistance)]
  · intro hlook
    constructor
    · show (if st.isLooking then st.cameraYaw
          else st.cameraYaw + (0 - st.cameraYaw) * smoothStep delta * 2)
          = st.cameraYaw * (1 - 2 * smoothStep delta)
      rw [hlook]
      simp only [Bool.false_eq_true, if_false]
      ring
    · show (if st.isLooking then st.cameraPitch
          else st.cameraPitch + (0 - st.cameraPitch) * smoothStep delta * 2)
          = st.cameraPitch * (1 - 2 * smoothStep delta)
      rw [hlook]
      simp only [Bool.false_eq_true, if_false]
      ring
  · intro ε hε
    have hr0 : (0:ℝ) ≤ 1 - smoothStep delta := by linarith
    have hr1 : 1 - smoothStep delta < 1 := by linarith
    set D := |st.currentDistance - st.targetDistance| with hD
    have hD0 : 0 ≤ D := abs_nonneg _
    obtain ⟨n, hn⟩ :=
      exists_pow_lt_of_lt_one (div_pos hε (by linarith : (0:ℝ) < D + 1)) hr1
    refine ⟨n, ?_⟩
    rw [(iterate_updateCameraSmooth_distance delta st n).1, abs_mul, abs_pow,
      abs_of_nonneg hr0]
    calc (1 - smoothStep delta) ^ n * D
        ≤ (1 - smoothStep delta) ^ n * (D + 1) := by
          exact mul_le_mul_of_nonneg_left (by linarith) (pow_nonneg hr0 n)
      _ < ε / (D + 1) * (D + 1) := by
          exact mul_lt_mul_of_pos_right hn (by linarith)
      _ = ε := div_mul_cancel₀ ε (by linarith)

/-- Witness for C4: with `delta = 1` the distance contraction equation holds
at the concrete rest state. -/
theorem C4_smoothing_moves_by_exact_factor_witness :
    (0:ℝ) < 1 ∧
    (updateCameraSmooth 1 exYawState).currentDistance - exYawState.targetDistance
      = (1 - smoothStep 1) * (exYawState.currentDistance - exYawState.targetDistance) :=
  ⟨one_pos, (C4_smoothing_moves_by_exact_factor exYawState 1 one_pos).2.1.1⟩

/-- Counterexample to C4 as stated: yaw/pitch self-centering is applied at
twice the factor, and for `delta = 1` that doubled factor exceeds 1, so a
positive yaw (1/2, target 0) overshoots past the target to a negative value in
a single frame — the claim that the current values never overshoot or
oscillate past the target fails for yaw/pitch. -/
theorem C4_counterexample :
    0 < exYawState.cameraYaw ∧ (updateCameraSmooth 1 exYawState).cameraYaw < 0 := by
  constructor
  · show (0:ℝ) < 1/2
    norm_num
  · have h : (updateCameraSmooth 1 exYawState).cameraYaw
        = 1/2 + (0 - 1/2) * smoothStep 1 * 2 := rfl
    rw [h]
    unfold smoothStep
    have h5 : (5:ℝ) ≤ Real.exp 4 := by
      have := Real.add_one_le_exp (4:ℝ)
      linarith
    have hexp : Real.exp (-1 * 4) ≤ 1/5 := by
      have heq : Real.exp ((-1:ℝ) * 4) = (Real.exp 4)⁻¹ := by
        rw [show ((-1:ℝ) * 4) = -(4:ℝ) by norm_num, Real.exp_neg]
      rw [heq]
      have h1 : (Real.exp 4)⁻¹ ≤ (5:ℝ)⁻¹ :=
        inv_anti₀ (by norm_num) h5
      calc (Real.exp 4)⁻¹ ≤ (5:ℝ)⁻¹ := h1
        _ = 1/5 := by norm_num
    linarith

/-! ### C1 — the visible set: BFS facts -/

theorem pushSuccs_shown_subset (ns : List Node) (shown : Finset String) (queue : List String) :
    shown ⊆ (pushSuccs ns shown queue).1 := by
  induction ns generalizing shown queue with
  | nil => exact fun x hx => hx
  | cons n ns ih =>
      cases hjn : jsNextId n with
      | none => simpa [pushSuccs, hjn] using ih shown queue
      | some nf =>
          by_cases hmem : nf ∈ shown
          · simpa [pushSuccs, hjn, hmem] using ih shown queue
          · simp only [pushSuccs, hjn, if_neg hmem]
            exact fun x hx => ih _ _ (Finset.mem_insert_of_mem hx)

theorem pushSuccs_shown_cases (ns : List Node) (shown : Finset String) (queue : List String) :
    ∀ x ∈ (pushSuccs ns shown queue).1,
      x ∈ shown ∨ ∃ n ∈ ns, jsNextId n = some x := by
  induction ns generalizing shown queue with
  | nil => exact fun x hx => Or.inl hx
  | cons n ns ih =>
      intro x hx
      cases hjn : jsNextId n with
      | none =>
          simp only [pushSuccs, hjn] at hx
          rcases ih shown queue x hx with h | ⟨n', hn', he⟩
          · exact Or.inl h
          · exact Or.inr ⟨n', List.mem_cons_of_mem n hn', he⟩
      | some nf =>
          by_cases hmem : nf ∈ shown
          · simp only [pushSuccs, hjn, if_pos hmem] at hx
            rcases ih shown queue x hx with h | ⟨n', hn', he⟩
            · exact Or.inl h
            · exact Or.inr ⟨n', List.mem_cons_of_mem n hn', he⟩
          · simp only [pushSuccs, hjn, if_neg hmem] at hx
            rcases ih _ _ x hx with h | ⟨n', hn', he⟩
            · rcases Finset.mem_insert.mp h with h' | h'
              · exact Or.inr ⟨n, List.mem_cons_self n ns, h' ▸ hjn⟩
              · exact Or.inl h'
            · exact Or.inr ⟨n', List.mem_cons_of_mem n hn', he⟩

theorem pushSuccs_queue_mem (ns : List Node) (shown : Finset String) (queue : List String) :
    ∀ x ∈ queue, x ∈ (pushSuccs ns shown queue).2 := by
  induction ns generalizing shown queue with
  | nil => exact fun x hx => hx
  | cons n ns ih =>
      intro x hx
      cases hjn : jsNextId n with
      | none =>
          simp only [pushSuccs, hjn]
          exact ih shown queue x hx
      | some nf =>
          by_cases hmem : nf ∈ shown
          · simp only [pushSuccs, hjn, if_pos hmem]
            exact ih shown queue x hx
          · simp only [pushSuccs, hjn, if_neg hmem]
            exact ih _ _ x (List.mem_append_left _ hx)

theorem pushSuccs_new_in_queue (ns : List Node) (shown : Finset String) (queue : List String) :
    ∀ x ∈ (pushSuccs ns shown queue).1, x ∈ shown ∨ x ∈ (pushSuccs ns shown queue).2 := by
  induction ns generalizing shown queue with
  | nil => exact fun x hx => Or.inl hx
  | cons n ns ih =>
      intro x hx
      cases hjn : jsNextId n with
      | none =>
          simp only [pushSuccs, hjn] at hx ⊢
          exact ih shown queue x hx
      | some nf =>
          by_cases hmem : nf ∈ shown
          · simp only [pushSuccs, hjn, if_pos hmem] at hx ⊢
            exact ih shown queue x hx
          · simp only [pushSuccs, hjn, if_neg hmem] at hx ⊢
            rcases ih _ _ x hx with h | h
            · rcases Finset.mem_insert.mp h with h' | h'
              · subst h'
                exact Or.inr (pushSuccs_queue_mem ns _ _ x
                  (List.mem_append_right _ (List.mem_singleton_self x)))
              · exact Or.inl h'
            · exact Or.inr h

theorem pushSuccs_succ_mem (ns : List Node) (shown : Finset String) (queue : List String) :
    ∀ n ∈ ns, ∀ nf, jsNextId n = some nf → nf ∈ (pushSuccs ns shown queue).1 := by
  induction ns generalizing shown queue with
  | nil => intro n hn; cases hn
  | cons m ns ih =>
      intro n hn nf he
      rcases List.mem_cons.mp hn with h | h
      · subst h
        simp only [pushSuccs, he]
        by_cases hmem : nf ∈ shown
        · rw [if_pos hmem]
          exact pushSuccs_shown_subset ns shown queue hmem
        · rw [if_neg hmem]
          exact pushSuccs_shown_subset ns _ _ (Finset.mem_insert_self nf _)
      · cases hjn : jsNextId m with
        | none =>
            simp only [pushSuccs, hjn]
            exact ih shown queue n h nf he
        | some nf' =>
            by_cases hmem : nf' ∈ shown
            · simp only [pushSuccs, hjn, if_pos hmem]
              exact ih shown queue n h nf he
            · simp only [pushSuccs, hjn, if_neg hmem]
              exact ih _ _ n h nf he

theorem pushSuccs_count (ns : List Node) (shown : Finset String) (queue : List String) :
    (pushSuccs ns shown queue).2.length + shown.card
      = queue.length + (pushSuccs ns shown queue).1.card := by
  induction ns generalizing shown queue with
  | nil => simp [pushSuccs]
  | cons n ns ih =>
      cases hjn : jsNextId n with
      | none =>
          simp only [pushSuccs, hjn]
          exact ih shown queue
      | some nf =>
          by_cases hmem : nf ∈ shown
          · simp only [pushSuccs, hjn, if_pos hmem]
            exact ih shown queue
          · simp only [pushSuccs, hjn, if_neg hmem]
            have h := ih (insert nf shown) (queue ++ [nf])
            rw [Finset.card_insert_of_not_mem hmem] at h
            simp only [List.length_append, List.length_singleton] at h
            omega

theorem mem_allEdgeTargets (g : Graph) (f : String) (n : Node) (nf : String)
    (hn : n ∈ folderNodes g f) (he : jsNextId n = some nf) : nf ∈ allEdgeTargets g := by
  unfold folderNodes at hn
  cases hff : findFolder g f with
  | none => rw [hff] at hn; cases hn
  | some fo =>
      rw [hff] at hn
      have hfo : fo ∈ g := List.mem_of_find?_eq_some hff
      unfold allEdgeTargets
      rw [List.mem_toFinset]
      apply List.mem_flatten.mpr
      refine ⟨fo.nodes.filterMap jsNextId, List.mem_map.mpr ⟨fo, hfo, rfl⟩, ?_⟩
      exact List.mem_filterMap.mpr ⟨n, hn, he⟩

theorem bfsLoop_mono (g : Graph) :
    ∀ (fuel : Nat) (queue : List String) (shown : Finset String),
      shown ⊆ bfsLoop g fuel queue shown := by
  intro fuel
  induction fuel with
  | zero => intro queue shown x hx; exact hx
  | succ fuel ih =>
      intro queue shown
      cases queue with
      | nil => intro x hx; exact hx
      | cons f rest =>
          intro x hx
          exact ih _ _ (pushSuccs_shown_subset (folderNodes g f) shown rest hx)

theorem bfsLoop_closed (g : Graph) (U : Finset String) (hU : allEdgeTargets g ⊆ U) :
    ∀ (fuel : Nat) (queue : List String) (shown : Finset String),
      shown ⊆ U →
      queue.length + 2 * (U.card - shown.card) ≤ fuel →
      (∀ f ∈ shown, f ∈ queue ∨ ∀ nf ∈ succIds g f, nf ∈ shown) →
      ∀ f ∈ bfsLoop g fuel queue shown, ∀ nf ∈ succIds g f, nf ∈ bfsLoop g fuel queue shown := by
  intro fuel
  induction fuel with
  | zero =>
      intro queue shown _hsub hfuel hinv f hf nf hnf
      have hq : queue = [] := by
        cases queue with
        | nil => rfl
        | cons a as => simp [List.length_cons] at hfuel
      subst hq
      rcases hinv f hf with h | h
      · cases h
      · exact h nf hnf
  | succ fuel ih =>
      intro queue shown hsub hfuel hinv
      cases queue with
      | nil =>
          intro f hf nf hnf
          rcases hinv f hf with h | h
          · cases h
          · exact h nf hnf
      | cons f0 rest =>
          intro f hf nf hnf
          have hsub' : (pushSuccs (folderNodes g f0) shown rest).1 ⊆ U := by
            intro x hx
            rcases pushSuccs_shown_cases _ _ _ x hx with h | ⟨n, hn, he⟩
            · exact hsub h
            · exact hU (mem_allEdgeTargets g f0 n x hn he)
          have hcard1 : shown.card ≤ (pushSuccs (folderNodes g f0) shown rest).1.card :=
            Finset.card_le_card (pushSuccs_shown_subset _ _ _)
          have hcard2 : (pushSuccs (folderNodes g f0) shown rest).1.card ≤ U.card :=
            Finset.card_le_card hsub'
          have hcount := pushSuccs_count (folderNodes g f0) shown rest
          have hfuel' : (pushSuccs (folderNodes g f0) shown rest).2.length
              + 2 * (U.card - (pushSuccs (folderNodes g f0) shown rest).1.card) ≤ fuel := by
            simp only [List.length_cons] at hfuel
            omega
          have hinv' : ∀ x ∈ (pushSuccs (folderNodes g f0) shown rest).1,
              x ∈ (pushSuccs (folderNodes g f0) shown rest).2 ∨
                ∀ nf2 ∈ succIds g x, nf2 ∈ (pushSuccs (folderNodes g f0) shown rest).1 := by
            intro x hx
            by_cases hxs : x ∈ shown
            · rcases hinv x hxs with h | h
              · rcases List.mem_cons.mp h with h' | h'
                · subst h'
                  right
                  intro nf2 hnf2
                  simp only [succIds] at hnf2
                  rcases List.mem_filterMap.mp hnf2 with ⟨n, hn, he⟩
                  exact pushSuccs_succ_mem _ _ _ n hn nf2 he
                · exact Or.inl (pushSuccs_queue_mem _ _ _ x h')
              · right
                intro nf2 hnf2
                exact pushSuccs_shown_subset _ _ _ (h nf2 hnf2)
            · rcases pushSuccs_new_in_queue _ _ _ x hx with h | h
              · exact absurd h hxs
              · exact Or.inl h
          exact ih _ _ hsub' hfuel' hinv' f hf nf hnf

theorem hist_subset_visibleFolders (g : Graph) (hist : List String) :
    ∀ f ∈ hist, f ∈ visibleFolders g hist := by
  intro f hf
  exact bfsLoop_mono g _ _ _ (List.mem_toFinset.mpr hf)

theorem visibleFolders_closed (g : Graph) (hist : List String) :
    ∀ f ∈ visibleFolders g hist, ∀ nf ∈ succIds g f, nf ∈ visibleFolders g hist := by
  apply bfsLoop_closed g (hist.toFinset ∪ allEdgeTargets g) Finset.subset_union_right
  · exact Finset.subset_union_left
  · have hcard := Finset.card_union_le hist.toFinset (allEdgeTargets g)
    have hlen : hist.toFinset.card ≤ hist.length := hist.toFinset_card_le
    omega
  · intro f hf
    exact Or.inl (List.mem_toFinset.mp hf)

theorem reach_mem_visibleFolders (g : Graph) (hist : List String) (v : String)
    (hr : Reach g hist v) : v ∈ visibleFolders g hist := by
  induction hr with
  | base h => exact hist_subset_visibleFolders g hist _ h
  | step _hr hs ih => exact visibleFolders_closed g hist _ ih _ hs

theorem pushSuccs_queue_cases (ns : List Node) (shown : Finset String) (queue : List String) :
    ∀ x ∈ (pushSuccs ns shown queue).2, x ∈ queue ∨ ∃ n ∈ ns, jsNextId n = some x := by
  induction ns generalizing shown queue with
  | nil => exact fun x hx => Or.inl hx
  | cons n ns ih =>
      intro x hx
      cases hjn : jsNextId n with
      | none =>
          simp only [pushSuccs, hjn] at hx
          rcases ih shown queue x hx with h | ⟨n', hn', he⟩
          · exact Or.inl h
          · exact Or.inr ⟨n', List.mem_cons_of_mem n hn', he⟩
      | some nf =>
          by_cases hmem : nf ∈ shown
          · simp only [pushSuccs, hjn, if_pos hmem] at hx
            rcases ih shown queue x hx with h | ⟨n', hn', he⟩
            · exact Or.inl h
            · exact Or.inr ⟨n', List.mem_cons_of_mem n hn', he⟩
          · simp only [pushSuccs, hjn, if_neg hmem] at hx
            rcases ih _ _ x hx with h | ⟨n', hn', he⟩
            · rcases List.mem_append.mp h with h' | h'
              · exact Or.inl h'
              · rw [List.mem_singleton.mp h']
                exact Or.inr ⟨n, List.mem_cons_self n ns, hjn⟩
            · exact Or.inr ⟨n', List.mem_cons_of_mem n hn', he⟩

/-- Soundness of the BFS: starting from a visited set and queue of folders
reachable from the history, everything it ever marks shown is reachable. -/
theorem bfsLoop_sound (g : Graph) (hist : List String) :
    ∀ (fuel : Nat) (queue : List String) (shown : Finset String),
      (∀ x ∈ shown, Reach g hist x) → (∀ x ∈ queue, Reach g hist x) →
      ∀ x ∈ bfsLoop g fuel queue shown, Reach g hist x := by
  intro fuel
  induction fuel with
  | zero => intro queue shown hs _ x hx; exact hs x hx
  | succ fuel ih =>
      intro queue shown hs hq
      cases queue with
      | nil => intro x hx; exact hs x hx
      | cons f0 rest =>
          intro x hx
          have hf0 : Reach g hist f0 := hq f0 (List.mem_cons_self _ _)
          have hs' : ∀ y ∈ (pushSuccs (folderNodes g f0) shown rest).1, Reach g hist y := by
            intro y hy
            rcases pushSuccs_shown_cases _ _ _ y hy with h | ⟨n, hn, he⟩
            · exact hs y h
            · refine Reach.step hf0 ?_
              simp only [succIds]
              exact List.mem_filterMap.mpr ⟨n, hn, he⟩
          have hq' : ∀ y ∈ (pushSuccs (folderNodes g f0) shown rest).2, Reach g hist y := by
            intro y hy
            rcases pushSuccs_queue_cases _ _ _ y hy with h | ⟨n, hn, he⟩
            · exact hq y (List.mem_cons_of_mem _ h)
            · refine Reach.step hf0 ?_
              simp only [succIds]
              exact List.mem_filterMap.mpr ⟨n, hn, he⟩
          exact ih _ _ hs' hq' x hx

/-- Every folder the BFS shows is reachable from the history: together with
`reach_mem_visibleFolders`, the visible set is exactly the `Reach` closure. -/
theorem visibleFolders_sound (g : Graph) (hist : List String) :
    ∀ x ∈ visibleFolders g hist, Reach g hist x := by
  apply bfsLoop_sound
  · intro x hx
    exact Reach.base (List.mem_toFinset.mp hx)
  · intro x hx
    exact Reach.base hx

/-! ### C1 — session facts -/

theorem reach_transfer (g : Graph) (h1 h2 : List String) (x : String)
    (hall : ∀ m ∈ h2, Reach g h1 m) (hx : Reach g h2 x) : Reach g h1 x := by
  induction hx with
  | base hmem => exact hall _ hmem
  | step _hr hs ih => exact Reach.step ih hs

theorem reach_mono (g : Graph) (h1 h2 : List String) (x : String)
    (hsub : ∀ m ∈ h1, m ∈ h2) (hx : Reach g h1 x) : Reach g h2 x := by
  induction hx with
  | base hmem => exact Reach.base (hsub _ hmem)
  | step _hr hs ih => exact Reach.step ih hs

theorem mem_of_getElem?_eq_some {l : List String} {i : Nat} {x : String}
    (h : l[i]? = some x) : x ∈ l := by
  rcases List.getElem?_eq_some_iff.mp h with ⟨hi, hx⟩
  exact hx ▸ List.getElem_mem hi

/-- Appending a folder reachable from the whole history preserves the
prefix-reachability shape. -/
theorem prefixReach_append (g : Graph) (hist : List String) (f : String)
    (hpr : prefixReach g hist) (hf : Reach g hist f) : prefixReach g (hist ++ [f]) := by
  intro i x hi hget
  by_cases hilen : i < hist.length
  · rw [List.getElem?_append, if_pos hilen] at hget
    rw [List.take_append_of_le_length (by omega)]
    exact hpr i x hi hget
  · by_cases hieq : i = hist.length
    · subst hieq
      rw [List.getElem?_append_right (le_refl _)] at hget
      simp only [Nat.sub_self, List.getElem?_cons_zero, Option.some.injEq] at hget
      subst hget
      rw [List.take_append_of_le_length (le_refl _), List.take_length]
      exact hf
    · exfalso
      rw [List.getElem?_eq_none (by simp [List.length_append]; omega)] at hget
      cases hget

/-- Truncation preserves the prefix-reachability shape. -/
theorem prefixReach_take (g : Graph) (hist : List String) (k : Nat)
    (hpr : prefixReach g hist) : prefixReach g (hist.take k) := by
  intro i x hi hget
  have hik : i < k := by
    have := (List.getElem?_eq_some_iff.mp hget).1
    rw [List.length_take] at this
    omega
  rw [List.getElem?_take_of_lt hik] at hget
  rw [List.take_take, min_eq_left (by omega : i ≤ k)]
  exact hpr i x hi hget

/-- In a prefix-reachable history, every element — including every element of
a dropped suffix — is reachable from any nonempty prefix. -/
theorem prefixReach_reach_take (g : Graph) (hist : List String)
    (hpr : prefixReach g hist) (k : Nat) (hk : 0 < k) :
    ∀ x ∈ hist, Reach g (hist.take k) x := by
  have main : ∀ (j : Nat) (x : String), hist[j]? = some x → Reach g (hist.take k) x := by
    intro j
    induction j using Nat.strong_induction_on with
    | _ j ih =>
        intro x hget
        by_cases hjk : j < k
        · refine Reach.base (mem_of_getElem?_eq_some (l := hist.take k) (i := j) ?_)
          rw [List.getElem?_take_of_lt hjk]
          exact hget
        · have hj0 : 0 < j := by omega
          refine reach_transfer g _ _ x ?_ (hpr j x hj0 hget)
          intro m hm
          obtain ⟨j', hj'len, hj'⟩ := List.mem_iff_getElem.mp hm
          have hj'j : j' < j := by
            rw [List.length_take] at hj'len
            omega
          have hm' : (hist.take j)[j']? = some m := by
            rw [List.getElem?_eq_getElem hj'len, hj']
          rw [List.getElem?_take_of_lt hj'j] at hm'
          exact ih j' hj'j m hm'
  intro x hx
  obtain ⟨j, hjlen, hj⟩ := List.mem_iff_getElem.mp hx
  apply main j
  rw [List.getElem?_eq_getElem hjlen, hj]

theorem getLast?_take (l : List String) (i : Nat) (x : String) (hget : l[i]? = some x) :
    (l.take (i + 1)).getLast? = some x := by
  have hi : i < l.length := (List.getElem?_eq_some_iff.mp hget).1
  rw [List.getLast?_eq_getElem?]
  have hlen : (l.take (i + 1)).length = i + 1 := by
    rw [List.length_take]
    omega
  rw [hlen]
  simpa [List.getElem?_take_of_lt (Nat.lt_succ_self i)] using hget

/-- A completed `enterFolder` on a destination reachable from the history
preserves the navigation invariant, and keeps everything previously reachable
reachable. -/
theorem enterFolder_preserves_inv (cfg : CameraConfig) (g : Graph) (st : GameState) (f : String)
    (hInv : NavInv g st) (hreach : Reach g st.navigationHistory f) :
    NavInv g (enterFolder cfg st f true) ∧
    (∀ v, Reach g st.navigationHistory v →
      Reach g (enterFolder cfg st f true).navigationHistory v) := by
  obtain ⟨hne, hlast, hpr, _htrans, hwon⟩ := hInv
  have hh : (enterFolder cfg st f true).navigationHistory =
      enterFolderHist st.navigationHistory f := by
    rw [enterFolder_navigationHistory]
    simp
  by_cases hmem : f ∈ st.navigationHistory
  · have hget : st.navigationHistory[(jsIndexOf st.navigationHistory f).toNat]? = some f :=
      jsIndexOf_getElem _ _ hmem
    have hhist : (enterFolder cfg st f true).navigationHistory =
        st.navigationHistory.take ((jsIndexOf st.navigationHistory f).toNat + 1) := by
      rw [hh, enterFolderHist_of_mem _ _ hmem]
    refine ⟨⟨?_, ?_, ?_, rfl, ?_⟩, ?_⟩
    · rw [hhist]
      intro hcontra
      have h2 := congrArg List.length hcontra
      rw [List.length_take] at h2
      simp only [List.length_nil] at h2
      have hkl : (jsIndexOf st.navigationHistory f).toNat < st.navigationHistory.length :=
        (List.getElem?_eq_some_iff.mp hget).1
      omega
    · rw [hhist]
      exact getLast?_take _ _ _ hget
    · rw [hhist]
      exact prefixReach_take g _ _ hpr
    · exact hwon
    · intro v hv
      rw [hhist]
      exact reach_transfer g _ _ v
        (prefixReach_reach_take g _ hpr _ (Nat.succ_pos _)) hv
  · have hhist : (enterFolder cfg st f true).navigationHistory =
        st.navigationHistory ++ [f] := by
      rw [hh, enterFolderHist_of_not_mem _ _ hmem]
    refine ⟨⟨?_, ?_, ?_, rfl, ?_⟩, ?_⟩
    · rw [hhist]
      simp
    · rw [hhist]
      exact List.getLast?_concat _
    · rw [hhist]
      exact prefixReach_append g _ f hpr hreach
    · exact hwon
    · intro v hv
      rw [hhist]
      exact reach_mono g _ _ v (fun m hm => List.mem_append_left _ hm) hv

/-- A single non-trap navigation event preserves the navigation invariant and
reachability of everything already reachable. -/
theorem navStep_preserves (cfg : CameraConfig) (g : Graph) (st : GameState) (e : NavEvent)
    (he : e ≠ NavEvent.trapBack) (hInv : NavInv g st) :
    NavInv g (navStep cfg g st e) ∧
    (∀ v, Reach g st.navigationHistory v → Reach g (navStep cfg g st e).navigationHistory v) := by
  cases e with
  | trapBack => exact absurd rfl he
  | nodeEnter f =>
      simp only [navStep]
      split_ifs with hguard
      · have hreach : Reach g st.navigationHistory f := by
          obtain ⟨fid, hfid, n, hn, he'⟩ := hguard
          refine Reach.step (visibleFolders_sound g _ fid hfid) ?_
          simp only [succIds]
          exact List.mem_filterMap.mpr ⟨n, hn, he'⟩
        exact enterFolder_preserves_inv cfg g st f hInv hreach
      · exact ⟨hInv, fun v hv => hv⟩
  | breadcrumb i =>
      obtain ⟨hne, hlast, hpr, htrans, hwon⟩ := hInv
      simp only [navStep, navigateToHistoryIndex]
      rw [if_neg (by simp [htrans, hwon])]
      cases hget : st.navigationHistory[i]? with
      | none => exact ⟨⟨hne, hlast, hpr, htrans, hwon⟩, fun v hv => hv⟩
      | some t =>
          dsimp only
          split_ifs with hguard
          · exact ⟨⟨hne, hlast, hpr, htrans, hwon⟩, fun v hv => hv⟩
          · have hi : i < st.navigationHistory.length := (List.getElem?_eq_some_iff.mp hget).1
            have hhist : (enterFolder cfg
                { st with navigationHistory := st.navigationHistory.take (i + 1) }
                t false).navigationHistory = st.navigationHistory.take (i + 1) := by
              rw [enterFolder_navigationHistory]
              simp
            refine ⟨⟨?_, ?_, ?_, rfl, ?_⟩, ?_⟩
            · rw [hhist]
              intro hcontra
              have h2 := congrArg List.length hcontra
              rw [List.length_take] at h2
              simp only [List.length_nil] at h2
              omega
            · rw [hhist]
              exact getLast?_take _ _ _ hget
            · rw [hhist]
              exact prefixReach_take g _ _ hpr
            · exact hwon
            · intro v hv
              rw [hhist]
              exact reach_transfer g _ _ v
                (prefixReach_reach_take g _ hpr _ (Nat.succ_pos _)) hv

/-- Along any session without `back`-trap events, the invariant holds, old
reachability is preserved, and every folder visited during the session is
reachable from the final history. -/
theorem runNavFrom_preserves (cfg : CameraConfig) (g : Graph) :
    ∀ (events : List NavEvent) (st : GameState),
      NavEvent.trapBack ∉ events → NavInv g st →
      NavInv g (runNavFrom cfg g st events) ∧
      (∀ v, Reach g st.navigationHistory v →
        Reach g (runNavFrom cfg g st events).navigationHistory v) ∧
      (∀ v ∈ navTrace cfg g st events,
        Reach g (runNavFrom cfg g st events).navigationHistory v) := by
  intro events
  induction events with
  | nil =>
      intro st _ hInv
      refine ⟨hInv, fun v hv => hv, ?_⟩
      intro v hv
      cases hv
  | cons e es ih =>
      intro st hmem hInv
      have he : e ≠ NavEvent.trapBack := fun h => hmem (h ▸ List.mem_cons_self e es)
      have hes : NavEvent.trapBack ∉ es := fun h => hmem (List.mem_cons_of_mem e h)
      obtain ⟨hInv1, htrans1⟩ := navStep_preserves cfg g st e he hInv
      obtain ⟨hInvF, htransF, htraceF⟩ := ih (navStep cfg g st e) hes hInv1
      refine ⟨hInvF, ?_, ?_⟩
      · intro v hv
        exact htransF v (htrans1 v hv)
      · intro v hv
        rcases List.mem_cons.mp (by simpa [navTrace] using hv) with h | h
        · subst h
          obtain ⟨_, hlast1, _, _, _⟩ := hInv1
          exact htransF _ (Reach.base (List.mem_of_mem_getLast? hlast1))
        · exact htraceF v h

/-- C1 (amended): after any session of completed navigation events that never
fires a `back` trap (node enters go through a `nextFolderId` edge of *any*
currently visible platform, matching the raycast targets rebuilt from the
whole visible set; breadcrumbs jump within the history), the visible set
contains the whole navigation history, contains every folder ever visited in
the session, and is closed under `nextFolderId` edges.  (A `back` trap can
append an edge-unconnected folder to the history, after which a later
truncation hides a visited folder — see the counterexample.) -/
theorem C1_visible_set_invariants (cfg : CameraConfig) (g : Graph) (events : List NavEvent)
    (hnotrap : NavEvent.trapBack ∉ events) :
    (∀ f ∈ (runNav cfg g events).navigationHistory,
      f ∈ visibleFolders g (runNav cfg g events).navigationHistory) ∧
    (∀ v ∈ sessionVisited cfg g events,
      v ∈ visibleFolders g (runNav cfg g events).navigationHistory) ∧
    (∀ f ∈ visibleFolders g (runNav cfg g events).navigationHistory,
      ∀ nf ∈ succIds g f, nf ∈ visibleFolders g (runNav cfg g events).navigationHistory) := by
  have hInv0 : NavInv g (initialState cfg) := by
    refine ⟨by simp [initialState], by simp [initialState], ?_, rfl, rfl⟩
    intro i x hi hget
    simp only [initialState] at hget
    cases i with
    | zero => omega
    | succ j => simp at hget
  obtain ⟨hInvF, htransF, htraceF⟩ :=
    runNavFrom_preserves cfg g events (initialState cfg) hnotrap hInv0
  refine ⟨hist_subset_visibleFolders g _, ?_, visibleFolders_closed g _⟩
  intro v hv
  rcases List.mem_cons.mp (by simpa [sessionVisited] using hv) with h | h
  · subst h
    apply reach_mem_visibleFolders
    apply htransF
    exact Reach.base (by simp [initialState])
  · exact reach_mem_visibleFolders g _ v (htraceF v h)

/-- Witness for C1: the trap-free session `root_usr → a → c → breadcrumb 0` on
the example graph keeps every visited folder visible. -/
theorem C1_visible_set_invariants_witness :
    NavEvent.trapBack ∉ exEventsOk ∧
    (∀ v ∈ sessionVisited CAMERA_CONFIG_v2 exGraph exEventsOk,
      v ∈ visibleFolders exGraph
        (runNav CAMERA_CONFIG_v2 exGraph exEventsOk).navigationHistory) :=
  ⟨by decide,
    (C1_visible_set_invariants CAMERA_CONFIG_v2 exGraph exEventsOk (by decide)).2.1⟩

/-- Counterexample to C1 as stated: in the session that fires the `back` trap
at folder `c` (appending the edge-unconnected folder `b`) and then jumps to
the root via the breadcrumb, folder `b` has been visited but is not in the
visible set of the final history. -/
theorem C1_counterexample :
    "b" ∈ sessionVisited CAMERA_CONFIG_v2 exGraph exEventsTrap ∧
    "b" ∉ visibleFolders exGraph
      (runNav CAMERA_CONFIG_v2 exGraph exEventsTrap).navigationHistory := by
  constructor
  · decide
  · decide
